import Mathlib

/-!
# Ecowitt gateway live-data decoder

A shallow embedding of `src/src/Read_Ecowitt_GW1000.cpp` (class `EcowittGW1000`) and of the
declarations of `src/src/Ecowitt-Gateway-Parser.h` it uses, followed by theorems about it.

Conventions of the embedding.

* A `uint8_t` is a `Byte = Fin 256`; the array behind `uint8_t* responseBuffer` is a `List Byte`
  and `int bytesRead` is an `Int`.  A read at an index outside the array is undefined behaviour in
  the source; here it ends the run with `Outcome.outOfBounds`, carrying the sink as it stood.
* `int32_t` values are carried as their 32-bit pattern (`Nat`, reduced `% 2 ^ 32`) and read back
  with `toInt32`; the casts `(int16_t)`, `(uint16_t)`, `(uint32_t)` are `toInt16`, `toUInt16`,
  `toUInt32`.
* The `float value` of a reading is carried as the rational that the stored `float` stands for:
  `x / 10.0` stored into the field is `toFloat (toDouble ((x : ℚ) / 10))`, the `double` quotient
  narrowed to `float`, and `(float)x` is `toFloat (x : ℚ)`.
* `int index` is a `Nat`: it starts at 5 and is only ever increased, and it stays below
  `bytesRead + 17`, so that no `int` overflows for any buffer a caller can hold.
* The `while` loop is run with fuel; `readAndDecode` supplies `bytesRead - 5` units of it.
* Where a statement speaks of a buffer of some length, the array is the buffer and `bytesRead`
  is its length.
-/

namespace EcowittGW1000

/-- A `uint8_t`. -/
abbrev Byte := Fin 256

/-- The header constant `PACKET_HEADER` of `Ecowitt-Gateway-Parser.h`. -/
def PACKET_HEADER : Nat := 0xFFFF

/-- The header constant `CMD_GW1000_LIVEDATA` of `Ecowitt-Gateway-Parser.h`. -/
def CMD_GW1000_LIVEDATA : Byte := 0x27

/-! ## The two floating-point formats

The `double` of `x / 10.0` is IEEE binary64 and the `float value` of a reading IEEE binary32, as
on the 32-bit boards that `WiFiClient` and `std::vector` point to.  A value of either format is
carried as the rational it stands for; `roundBits p` is rounding to nearest, ties to even, to
`p` significant bits.  The exponent range is not modelled: every number the decoder converts is
0 or has a magnitude between 1/10 and `2 ^ 32`, far inside the normal range of both formats. -/

/-- The position of the leading bit of `n`, found in at most `fuel` halvings. -/
def leadingBit : Nat → Nat → Nat
  | 0, _ => 0
  | fuel + 1, n => if 2 ≤ n then leadingBit fuel (n / 2) + 1 else 0

/-- The exponent of the leading bit of the positive rational `n / d`: the `e` with
`2 ^ e ≤ n / d < 2 ^ (e + 1)`. -/
def floorLog2 (n d : Nat) : Int :=
  let e0 : Int := (leadingBit n n : Int) - (leadingBit d d : Int)
  if d * 2 ^ e0.toNat ≤ n * 2 ^ (-e0).toNat then e0 else e0 - 1

/-- The integer nearest to `a / b`, the even one of the two at a tie. -/
def nearestEven (a b : Nat) : Nat :=
  let f := a / b
  let rem := a % b
  if 2 * rem < b then f else if b < 2 * rem then f + 1 else if f % 2 = 0 then f else f + 1

/-- The positive rational `n / d` rounded to `p` significant bits: with `k` the exponent of the
last of the `p` bits, the nearest multiple of `2 ^ k`. -/
def roundPos (p n d : Nat) : ℚ :=
  let k : Int := floorLog2 n d - (p : Int) + 1
  let r := nearestEven (n * 2 ^ (-k).toNat) (d * 2 ^ k.toNat)
  (r : ℚ) * ((2 ^ k.toNat : Nat) : ℚ) / ((2 ^ (-k).toNat : Nat) : ℚ)

/-- Rounding to nearest, ties to even, to `p` significant bits. -/
def roundBits (p : Nat) (q : ℚ) : ℚ :=
  if q = 0 then 0
  else if q.num < 0 then -roundPos p q.num.natAbs q.den
  else roundPos p q.num.natAbs q.den

/-- The `double` nearest to `q`: the result of a `double` operation whose exact result is
`q`. -/
def toDouble (q : ℚ) : ℚ := roundBits 53 q

/-- The `float` nearest to `q`: the conversion to `float` of a number of value `q`. -/
def toFloat (q : ℚ) : ℚ := roundBits 24 q

/-- The `struct EcowittSensorReading` of the header; `value` is the rational the `float` stands
for. -/
structure EcowittSensorReading where
  itemCode : Byte
  description : String
  units : String
  value : ℚ
deriving DecidableEq

/-- The local `struct SensorItem`. -/
structure SensorItem where
  itemCode : Byte
  description : String
  units : String
  size : Nat
deriving DecidableEq

/-- The table `sensorItems[]`, lines 29 to 149, entry for entry. -/
def sensorItems : List SensorItem := [
  SensorItem.mk 0x01 "Indoor Temperature" "°C" 2,
  SensorItem.mk 0x02 "Outdoor Temperature" "°C" 2,
  SensorItem.mk 0x03 "Dew point" "°C" 2,
  SensorItem.mk 0x04 "Wind chill" "°C" 2,
  SensorItem.mk 0x05 "Heat index" "°C" 2,
  SensorItem.mk 0x06 "Indoor Humidity" "%" 1,
  SensorItem.mk 0x07 "Outdoor Humidity" "%" 1,
  SensorItem.mk 0x08 "Absolutely Barometric" "hPa" 2,
  SensorItem.mk 0x09 "Relative Barometric" "hPa" 2,
  SensorItem.mk 0x0A "Wind Direction" "°" 2,
  SensorItem.mk 0x0B "Wind Speed" "m/s" 2,
  SensorItem.mk 0x0C "Gust Speed" "m/s" 2,
  SensorItem.mk 0x0D "Rain Event" "mm" 2,
  SensorItem.mk 0x0E "Rain Rate" "mm/h" 2,
  SensorItem.mk 0x0F "Rain Gain" "mm" 2,
  SensorItem.mk 0x10 "Rain Day" "mm" 2,
  SensorItem.mk 0x11 "Rain Week" "mm" 2,
  SensorItem.mk 0x12 "Rain Month" "mm" 4,
  SensorItem.mk 0x13 "Rain Year" "mm" 4,
  SensorItem.mk 0x14 "Rain Totals" "mm" 4,
  SensorItem.mk 0x15 "Light" "lux" 4,
  SensorItem.mk 0x16 "UV" "uW/m²" 2,
  SensorItem.mk 0x17 "UVI" "index" 1,
  SensorItem.mk 0x18 "Date and time" "N/A" 6,
  SensorItem.mk 0x19 "Day max wind" "m/s" 2,
  SensorItem.mk 0x1A "Temperature 1" "°C" 2,
  SensorItem.mk 0x1B "Temperature 2" "°C" 2,
  SensorItem.mk 0x1C "Temperature 3" "°C" 2,
  SensorItem.mk 0x1D "Temperature 4" "°C" 2,
  SensorItem.mk 0x1E "Temperature 5" "°C" 2,
  SensorItem.mk 0x1F "Temperature 6" "°C" 2,
  SensorItem.mk 0x20 "Temperature 7" "°C" 2,
  SensorItem.mk 0x21 "Temperature 8" "°C" 2,
  SensorItem.mk 0x22 "Humidity 1" "%" 1,
  SensorItem.mk 0x23 "Humidity 2" "%" 1,
  SensorItem.mk 0x24 "Humidity 3" "%" 1,
  SensorItem.mk 0x25 "Humidity 4" "%" 1,
  SensorItem.mk 0x26 "Humidity 5" "%" 1,
  SensorItem.mk 0x27 "Humidity 6" "%" 1,
  SensorItem.mk 0x28 "Humidity 7" "%" 1,
  SensorItem.mk 0x29 "Humidity 8" "%" 1,
  SensorItem.mk 0x2A "PM2.5 Air Quality Sensor" "µg/m³" 2,
  SensorItem.mk 0x2B "Soil Temperature 1" "°C" 2,
  SensorItem.mk 0x2C "Soil Moisture 1" "%" 1,
  SensorItem.mk 0x2D "Soil Temperature 2" "°C" 2,
  SensorItem.mk 0x2E "Soil Moisture 2" "%" 1,
  SensorItem.mk 0x2F "Soil Temperature 3" "°C" 2,
  SensorItem.mk 0x30 "Soil Moisture 3" "%" 1,
  SensorItem.mk 0x31 "Soil Temperature 4" "°C" 2,
  SensorItem.mk 0x32 "Soil Moisture 4" "%" 1,
  SensorItem.mk 0x33 "Soil Temperature 5" "°C" 2,
  SensorItem.mk 0x34 "Soil Moisture 5" "%" 1,
  SensorItem.mk 0x35 "Soil Temperature 6" "°C" 2,
  SensorItem.mk 0x36 "Soil Moisture 6" "%" 1,
  SensorItem.mk 0x37 "Soil Temperature 7" "°C" 2,
  SensorItem.mk 0x38 "Soil Moisture 7" "%" 1,
  SensorItem.mk 0x39 "Soil Temperature 8" "°C" 2,
  SensorItem.mk 0x3A "Soil Moisture 8" "%" 1,
  SensorItem.mk 0x3B "Soil Temperature 9" "°C" 2,
  SensorItem.mk 0x3C "Soil Moisture 9" "%" 1,
  SensorItem.mk 0x3D "Soil Temperature 10" "°C" 2,
  SensorItem.mk 0x3E "Soil Moisture 10" "%" 1,
  SensorItem.mk 0x3F "Soil Temperature 11" "°C" 2,
  SensorItem.mk 0x40 "Soil Moisture 11" "%" 1,
  SensorItem.mk 0x41 "Soil Temperature 12" "°C" 2,
  SensorItem.mk 0x42 "Soil Moisture 12" "%" 1,
  SensorItem.mk 0x43 "Soil Temperature 13" "°C" 2,
  SensorItem.mk 0x44 "Soil Moisture 13" "%" 1,
  SensorItem.mk 0x45 "Soil Temperature 14" "°C" 2,
  SensorItem.mk 0x46 "Soil Moisture 14" "%" 1,
  SensorItem.mk 0x47 "Soil Temperature 15" "°C" 2,
  SensorItem.mk 0x48 "Soil Moisture 15" "%" 1,
  SensorItem.mk 0x49 "Soil Temperature 16" "°C" 2,
  SensorItem.mk 0x4A "Soil Moisture 16" "%" 1,
  SensorItem.mk 0x4C "All sensor lowbatt" "N/A" 16,
  SensorItem.mk 0x4D "PM2.5 24H Average 1" "N/A" 2,
  SensorItem.mk 0x4E "PM2.5 24H Average 2" "N/A" 2,
  SensorItem.mk 0x4F "PM2.5 24H Average 3" "N/A" 2,
  SensorItem.mk 0x50 "PM2.5 24H Average 4" "N/A" 2,
  SensorItem.mk 0x51 "PM2.5 Air Quality Sensor 2" "µg/m³" 2,
  SensorItem.mk 0x52 "PM2.5 Air Quality Sensor 3" "µg/m³" 2,
  SensorItem.mk 0x53 "PM2.5 Air Quality Sensor 4" "µg/m³" 2,
  SensorItem.mk 0x58 "Leak Sensor 1" "N/A" 1,
  SensorItem.mk 0x59 "Leak Sensor 2" "N/A" 1,
  SensorItem.mk 0x5A "Leak Sensor 3" "N/A" 1,
  SensorItem.mk 0x5B "Leak Sensor 4" "N/A" 1,
  SensorItem.mk 0x60 "Lightning distance" "KM" 1,
  SensorItem.mk 0x61 "Lightning happened time" "UTC" 4,
  SensorItem.mk 0x62 "Lightning counter" "N/A" 4,
  SensorItem.mk 0x63 "Temperature 1" "°C" 3,
  SensorItem.mk 0x64 "Temperature 2" "°C" 3,
  SensorItem.mk 0x65 "Temperature 3" "°C" 3,
  SensorItem.mk 0x66 "Temperature 4" "°C" 3,
  SensorItem.mk 0x67 "Temperature 5" "°C" 3,
  SensorItem.mk 0x68 "Temperature 6" "°C" 3,
  SensorItem.mk 0x69 "Temperature 7" "°C" 3,
  SensorItem.mk 0x6A "Temperature 8" "°C" 3,
  SensorItem.mk 0x6C "Heap Free" "N/A" 4,
  SensorItem.mk 0x70 "CO2 Sensor" "N/A" 16,
  SensorItem.mk 0x71 "PM2.5 AQI" "N/A" 1,
  SensorItem.mk 0x72 "Leaf Wetness 1" "N/A" 1,
  SensorItem.mk 0x73 "Leaf Wetness 2" "N/A" 1,
  SensorItem.mk 0x74 "Leaf Wetness 3" "N/A" 1,
  SensorItem.mk 0x75 "Leaf Wetness 4" "N/A" 1,
  SensorItem.mk 0x76 "Leaf Wetness 5" "N/A" 1,
  SensorItem.mk 0x77 "Leaf Wetness 6" "N/A" 1,
  SensorItem.mk 0x78 "Leaf Wetness 7" "N/A" 1,
  SensorItem.mk 0x79 "Leaf Wetness 8" "N/A" 1,
  SensorItem.mk 0x7A "Rain Priority" "N/A" 1,
  SensorItem.mk 0x7B "Radiation compensation" "N/A" 1,
  SensorItem.mk 0x80 "Piezo Rain Rate" "N/A" 2,
  SensorItem.mk 0x81 "Piezo Event Rain" "N/A" 2,
  SensorItem.mk 0x82 "Piezo Hourly Rain" "N/A" 2,
  SensorItem.mk 0x83 "Piezo Daily Rain" "N/A" 4,
  SensorItem.mk 0x84 "Piezo Weekly Rain" "N/A" 4,
  SensorItem.mk 0x85 "Piezo Monthly Rain" "N/A" 4,
  SensorItem.mk 0x86 "Piezo yearly Rain" "N/A" 4,
  SensorItem.mk 0x87 "Piezo Gain" "N/A" 2,
  SensorItem.mk 0x88 "RST Rain Time" "N/A" 3
]

/-- The constant `numSensorItems`. -/
def numSensorItems : Nat := sensorItems.length

/-- The value of an `int32_t` with the given 32-bit pattern. -/
def toInt32 (bits : Nat) : Int :=
  if bits % 2 ^ 32 < 2 ^ 31 then ((bits % 2 ^ 32 : Nat) : Int)
  else ((bits % 2 ^ 32 : Nat) : Int) - 2 ^ 32

/-- The cast `(int16_t)v`. -/
def toInt16 (v : Int) : Int :=
  if v % 65536 < 32768 then v % 65536 else v % 65536 - 65536

/-- The cast `(uint16_t)v`. -/
def toUInt16 (v : Int) : Int := v % 65536

/-- The cast `(uint32_t)v`. -/
def toUInt32 (v : Int) : Int := v % 4294967296

/-- One pass of the body `value = (value << 8) | buffer[i]`, on the 32-bit pattern of `value`. -/
def shiftOr (value : Nat) (b : Byte) : Nat :=
  ((value <<< 8) ||| b.val) % 2 ^ 32

/-- The method `convertBytesToInteger(buffer, size)`, lines 175 to 181: `buffer` is the array from
the pointer on, and the result is `none` when fewer than `size` bytes lie behind the pointer. -/
def convertBytesToInteger (buffer : List Byte) (size : Nat) : Option Int :=
  if size ≤ buffer.length then some (toInt32 ((buffer.take size).foldl shiftOr 0)) else none

/-- The cast `(uint8_t)n` of a non-negative `int`. -/
def toUInt8 (n : Nat) : Byte :=
  ⟨n % 256, Nat.mod_lt n (by decide)⟩

/-- The method `sendCommand(cmd)`, lines 157 to 167: the five bytes of `packet`, which are handed
to `_client.write`.  The sum `cmd + packet[3]` is an `int`, stored into the `uint8_t checksum`. -/
def sendCommand (cmd : Byte) : List Byte :=
  let packet0 := toUInt8 ((PACKET_HEADER >>> 8) &&& 0xFF)
  let packet1 := toUInt8 (PACKET_HEADER &&& 0xFF)
  let packet2 := cmd
  let packet3 : Byte := 0x03
  let checksum := toUInt8 (cmd.val + packet3.val)
  let packet4 := checksum
  [packet0, packet1, packet2, packet3, packet4]

/-- How a run of `readAndDecode` ends. -/
inductive Outcome where
  /-- `return result;` with the sink `_readings` as it is left. -/
  | returned (result : Bool) (readings : List EcowittSensorReading)
  /-- A byte outside the array was read; `readings` is the sink at that moment. -/
  | outOfBounds (readings : List EcowittSensorReading)
  /-- The fuel of the loop ran out; `readings` is the sink at that moment. -/
  | outOfFuel (readings : List EcowittSensorReading)
deriving DecidableEq

/-- The sink `_readings` at the end of a run. -/
def Outcome.sink : Outcome → List EcowittSensorReading
  | .returned _ readings => readings
  | .outOfBounds readings => readings
  | .outOfFuel readings => readings

/-- How one pass of the `while` body ends. -/
inductive Step where
  /-- Back to the loop test, with the new `index` and sink. -/
  | next (index : Nat) (readings : List EcowittSensorReading)
  /-- The run is over. -/
  | stop (o : Outcome)
deriving DecidableEq

/-- The call `_readings.clear()`: whatever the vector held, it is empty afterwards. -/
def clear (_readings : List EcowittSensorReading) : List EcowittSensorReading :=
  []

/-- A read that may fall outside the array: the value, or the sink as it stands. -/
def readOr {α : Type} (r : Option α) (readings : List EcowittSensorReading) :
    Except (List EcowittSensorReading) α :=
  match r with
  | some a => .ok a
  | none => .error readings

/-- The block for `ITEM_SENSOR_CO2`, lines 206 to 249, entered with `index` just behind the tag. -/
def decodeCO2 (responseBuffer : List Byte) (index : Nat) (readings : List EcowittSensorReading) :
    Except (List EcowittSensorReading) (Nat × List EcowittSensorReading) := do
  let tf_co2 ← readOr (convertBytesToInteger (responseBuffer.drop index) 2) readings
  let readings := readings ++ [⟨0x70, "CO2 Temperature", "°C", toFloat (toDouble ((toInt16 tf_co2 : ℚ) / 10))⟩]
  let index := index + 2
  let humi_co2 ← readOr responseBuffer[index]? readings
  let index := index + 1
  let readings := readings ++ [⟨0x70, "CO2 Humidity", "%", toFloat (humi_co2.val : ℚ)⟩]
  let pm10_co2 ← readOr (convertBytesToInteger (responseBuffer.drop index) 2) readings
  let readings := readings ++ [⟨0x70, "CO2 PM10", "ug/m³", toFloat (toDouble ((toUInt16 pm10_co2 : ℚ) / 10))⟩]
  let index := index + 2
  let pm10_24h_co2 ← readOr (convertBytesToInteger (responseBuffer.drop index) 2) readings
  let readings := readings ++ [⟨0x70, "CO2 PM10 24h Avg", "ug/m³", toFloat (toDouble ((toUInt16 pm10_24h_co2 : ℚ) / 10))⟩]
  let index := index + 2
  let pm25_co2 ← readOr (convertBytesToInteger (responseBuffer.drop index) 2) readings
  let readings := readings ++ [⟨0x70, "CO2 PM2.5", "ug/m³", toFloat (toDouble ((toUInt16 pm25_co2 : ℚ) / 10))⟩]
  let index := index + 2
  let pm25_24h_co2 ← readOr (convertBytesToInteger (responseBuffer.drop index) 2) readings
  let readings := readings ++ [⟨0x70, "CO2 PM2.5 24h Avg", "ug/m³", toFloat (toDouble ((toUInt16 pm25_24h_co2 : ℚ) / 10))⟩]
  let index := index + 2
  let co2 ← readOr (convertBytesToInteger (responseBuffer.drop index) 2) readings
  let readings := readings ++ [⟨0x70, "CO2", "ppm", toFloat (toUInt16 co2 : ℚ)⟩]
  let index := index + 2
  let co2_24h ← readOr (convertBytesToInteger (responseBuffer.drop index) 2) readings
  let readings := readings ++ [⟨0x70, "CO2 24h Avg", "ppm", toFloat (toUInt16 co2_24h : ℚ)⟩]
  let index := index + 2
  let co2_batt ← readOr responseBuffer[index]? readings
  let index := index + 1
  let readings := readings ++ [⟨0x70, "CO2 Battery", "N/A", toFloat (co2_batt.val : ℚ)⟩]
  pure (index, readings)

/-- The block for `ITEM_PM25_AQI`, lines 253 to 284, entered with `index` just behind the tag. -/
def decodeAQI (responseBuffer : List Byte) (index : Nat) (readings : List EcowittSensorReading) :
    Except (List EcowittSensorReading) (Nat × List EcowittSensorReading) := do
  let aqi_pm25 ← readOr (convertBytesToInteger (responseBuffer.drop index) 2) readings
  let readings := readings ++ [⟨0x71, "AQI (PM2.5)", "index", toFloat (toInt16 aqi_pm25 : ℚ)⟩]
  let index := index + 2
  let aqi_pm25_24h ← readOr (convertBytesToInteger (responseBuffer.drop index) 2) readings
  let readings := readings ++ [⟨0x71, "AQI (PM2.5, 24h Avg)", "index", toFloat (toInt16 aqi_pm25_24h : ℚ)⟩]
  let index := index + 2
  let aqi_pm25_in ← readOr (convertBytesToInteger (responseBuffer.drop index) 2) readings
  let readings := readings ++ [⟨0x71, "AQI (PM2.5, Indoor)", "index", toFloat (toInt16 aqi_pm25_in : ℚ)⟩]
  let index := index + 2
  let aqi_pm25_in_24h ← readOr (convertBytesToInteger (responseBuffer.drop index) 2) readings
  let readings := readings ++
    [⟨0x71, "AQI (PM2.5, Indoor, 24h Avg)", "index", toFloat (toInt16 aqi_pm25_in_24h : ℚ)⟩]
  let index := index + 2
  let aqi_pm25_aqin ← readOr (convertBytesToInteger (responseBuffer.drop index) 2) readings
  let readings := readings ++
    [⟨0x71, "AQI (PM2.5, AQIN Sensor)", "index", toFloat (toInt16 aqi_pm25_aqin : ℚ)⟩]
  let index := index + 2
  let aqi_pm25_24h_aqin ← readOr (convertBytesToInteger (responseBuffer.drop index) 2) readings
  let readings := readings ++
    [⟨0x71, "AQI (PM2.5, AQIN Sensor, 24h Avg)", "index", toFloat (toInt16 aqi_pm25_24h_aqin : ℚ)⟩]
  let index := index + 2
  pure (index, readings)

/-- The chain of `if`/`else if` of lines 294 to 312 that computes `value` for the table entry
`item`, with `index` at the first value byte.  The comparisons of `itemCode` with the integer
literals are comparisons of numbers, as after integer promotion. -/
def itemValue (responseBuffer : List Byte) (index : Nat) (item : SensorItem) : Option ℚ :=
  if 0x01 ≤ item.itemCode.val ∧ item.itemCode.val ≤ 0x05 then
    (convertBytesToInteger (responseBuffer.drop index) item.size).map
      fun v => toFloat (toDouble ((toInt16 v : ℚ) / 10))
  else if item.itemCode.val = 0x06 ∨ item.itemCode.val = 0x07 then
    responseBuffer[index]?.map fun b => toFloat (b.val : ℚ)
  else if item.itemCode.val = 0x0B ∨ item.itemCode.val = 0x0C then
    (convertBytesToInteger (responseBuffer.drop index) item.size).map
      fun v => toFloat (toDouble ((toUInt16 v : ℚ) / 10))
  else if 0x0D ≤ item.itemCode.val ∧ item.itemCode.val ≤ 0x14 then
    (convertBytesToInteger (responseBuffer.drop index) item.size).map
      fun v => toFloat (toDouble ((toUInt32 v : ℚ) / 10))
  else if item.itemCode.val = 0x16 then
    (convertBytesToInteger (responseBuffer.drop index) item.size).map
      fun v => toFloat (toDouble ((toUInt16 v : ℚ) / 10))
  else
    (convertBytesToInteger (responseBuffer.drop index) item.size).map
      fun (v : Int) => toFloat (v : ℚ)

/-- The search `for (size_t i = 0; i < numSensorItems; i++)` of lines 289 to 318: the first entry
of the table whose `itemCode` is the tag, if there is one. -/
def findItem (itemCode : Byte) : Option SensorItem :=
  sensorItems.find? fun item => item.itemCode == itemCode

/-- One pass of the body of `while (index < bytesRead)`, lines 203 to 323. -/
def loopBody (responseBuffer : List Byte) (bytesRead : Int) (index : Nat)
    (readings : List EcowittSensorReading) : Step :=
  match responseBuffer[index]? with
  | none => .stop (.outOfBounds readings)
  | some itemCode =>
    let index := index + 1
    if itemCode = 0x70 then
      match decodeCO2 responseBuffer index readings with
      | .ok (index, readings) => .next index readings
      | .error readings => .stop (.outOfBounds readings)
    else if itemCode = 0x71 then
      match decodeAQI responseBuffer index readings with
      | .ok (index, readings) => .next index readings
      | .error readings => .stop (.outOfBounds readings)
    else
      match findItem itemCode with
      | none => .stop (.returned false readings)
      | some item =>
        if (index : Int) + (item.size : Int) ≤ bytesRead then
          match itemValue responseBuffer index item with
          | none => .stop (.outOfBounds readings)
          | some value =>
            .next (index + item.size)
              (readings ++ [⟨itemCode, item.description, item.units, value⟩])
        else .next index readings

/-- The loop `while (index < bytesRead)` of lines 202 to 325, run for at most `fuel` passes. -/
def decodeLoop (responseBuffer : List Byte) (bytesRead : Int) :
    Nat → Nat → List EcowittSensorReading → Outcome
  | 0, index, readings =>
    if (index : Int) < bytesRead then .outOfFuel readings else .returned true readings
  | fuel + 1, index, readings =>
    if (index : Int) < bytesRead then
      match loopBody responseBuffer bytesRead index readings with
      | .next index readings => decodeLoop responseBuffer bytesRead fuel index readings
      | .stop o => o
    else .returned true readings

/-- The method `readAndDecode(responseBuffer, bytesRead)`, lines 189 to 326; `_readings` is the
sink as the call finds it. -/
def readAndDecode (_readings : List EcowittSensorReading) (responseBuffer : List Byte)
    (bytesRead : Int) : Outcome :=
  let readings := clear _readings
  if bytesRead < 5 then .returned false readings
  else
    match responseBuffer[0]? with
    | none => .outOfBounds readings
    | some b0 =>
      if b0 ≠ 0xFF then .returned false readings
      else
        match responseBuffer[1]? with
        | none => .outOfBounds readings
        | some b1 =>
          if b1 ≠ 0xFF then .returned false readings
          else
            match responseBuffer[2]? with
            | none => .outOfBounds readings
            | some b2 =>
              if b2 ≠ 0x27 then .returned false readings
              else decodeLoop responseBuffer bytesRead (bytesRead - 5).toNat 5 readings

/-! ## Vocabulary of the specification -/

/-- The unsigned big-endian integer of a byte string, most significant byte first. -/
def bigEndian (bytes : List Byte) : Nat :=
  bytes.foldl (fun v b => v * 256 + b.val) 0

/-- The signed 16-bit two's-complement reading of the low 16 bits of `u`. -/
def signed16 (u : Nat) : Int :=
  if u % 65536 < 32768 then ((u % 65536 : Nat) : Int) else ((u % 65536 : Nat) : Int) - 65536

/-- The unsigned 16-bit big-endian integer of the value bytes `k` and `k + 1`. -/
def u16At (value : List Byte) (k : Nat) : Nat :=
  bigEndian ((value.drop k).take 2)

/-- The value byte `k` as a number. -/
def byteAt (value : List Byte) (k : Nat) : Nat :=
  (value.getD k 0).val

/-- A record of the payload: a table entry with its value bytes, or one of the two clusters with
its value bytes. -/
inductive Record where
  | item (entry : SensorItem) (value : List Byte)
  | co2 (value : List Byte)
  | aqi (value : List Byte)

/-- The bytes of a record: its tag, then its value bytes. -/
def Record.encode : Record → List Byte
  | .item entry value => entry.itemCode :: value
  | .co2 value => 0x70 :: value
  | .aqi value => 0x71 :: value

/-- A complete record: an entry of the table other than those of `0x70` and `0x71` with exactly
`size` value bytes, a CO2 cluster of 16 value bytes, or an AQI cluster of 12 value bytes. -/
def Record.Complete : Record → Prop
  | .item entry value =>
    entry ∈ sensorItems ∧ entry.itemCode ≠ 0x70 ∧ entry.itemCode ≠ 0x71 ∧
      value.length = entry.size
  | .co2 value => value.length = 16
  | .aqi value => value.length = 12

instance : DecidablePred Record.Complete := fun r => by
  cases r <;> unfold Record.Complete <;> infer_instance

/-- The value the source computes for the table entry `entry` from the value bytes `value` alone
(`0` if the bytes are too few). -/
def catalogValue (entry : SensorItem) (value : List Byte) : ℚ :=
  (itemValue value 0 entry).getD 0

/-- The nine readings of a CO2 cluster with value bytes `value`, in their fixed order. -/
def co2Readings (value : List Byte) : List EcowittSensorReading :=
  [⟨0x70, "CO2 Temperature", "°C", toFloat (toDouble ((signed16 (u16At value 0) : ℚ) / 10))⟩,
   ⟨0x70, "CO2 Humidity", "%", (byteAt value 2 : ℚ)⟩,
   ⟨0x70, "CO2 PM10", "ug/m³", toFloat (toDouble ((u16At value 3 : ℚ) / 10))⟩,
   ⟨0x70, "CO2 PM10 24h Avg", "ug/m³", toFloat (toDouble ((u16At value 5 : ℚ) / 10))⟩,
   ⟨0x70, "CO2 PM2.5", "ug/m³", toFloat (toDouble ((u16At value 7 : ℚ) / 10))⟩,
   ⟨0x70, "CO2 PM2.5 24h Avg", "ug/m³", toFloat (toDouble ((u16At value 9 : ℚ) / 10))⟩,
   ⟨0x70, "CO2", "ppm", (u16At value 11 : ℚ)⟩,
   ⟨0x70, "CO2 24h Avg", "ppm", (u16At value 13 : ℚ)⟩,
   ⟨0x70, "CO2 Battery", "N/A", (byteAt value 15 : ℚ)⟩]

/-- The six readings of an AQI cluster with value bytes `value`, in their fixed order. -/
def aqiReadings (value : List Byte) : List EcowittSensorReading :=
  [⟨0x71, "AQI (PM2.5)", "index", (signed16 (u16At value 0) : ℚ)⟩,
   ⟨0x71, "AQI (PM2.5, 24h Avg)", "index", (signed16 (u16At value 2) : ℚ)⟩,
   ⟨0x71, "AQI (PM2.5, Indoor)", "index", (signed16 (u16At value 4) : ℚ)⟩,
   ⟨0x71, "AQI (PM2.5, Indoor, 24h Avg)", "index", (signed16 (u16At value 6) : ℚ)⟩,
   ⟨0x71, "AQI (PM2.5, AQIN Sensor)", "index", (signed16 (u16At value 8) : ℚ)⟩,
   ⟨0x71, "AQI (PM2.5, AQIN Sensor, 24h Avg)", "index", (signed16 (u16At value 10) : ℚ)⟩]

/-- The readings of a record. -/
def Record.readings : Record → List EcowittSensorReading
  | .item entry value =>
    [⟨entry.itemCode, entry.description, entry.units, catalogValue entry value⟩]
  | .co2 value => co2Readings value
  | .aqi value => aqiReadings value

/-- The packet prefix: header `0xFF 0xFF`, command `0x27`, and the two bytes of the length
field. -/
def packetPrefix (b3 b4 : Byte) : List Byte :=
  [0xFF, 0xFF, 0x27, b3, b4]

/-- The payload of a sequence of records. -/
def payload (recs : List Record) : List Byte :=
  recs.flatMap Record.encode

/-- The readings of a sequence of records, in record order. -/
def readingsOf (recs : List Record) : List EcowittSensorReading :=
  recs.flatMap Record.readings

/-- The cursor of a step moved `k` bytes to the right. -/
def Step.shift (k : Nat) : Step → Step
  | .next index readings => .next (k + index) readings
  | .stop o => .stop o

/-- A sample payload: outdoor temperature, a CO2 cluster, indoor humidity, an AQI cluster. -/
def sampleRecords : List Record :=
  [.item (SensorItem.mk 0x02 "Outdoor Temperature" "°C" 2) [0xFF, 0x97],
   .co2 [0x00, 0xEB, 0x2D, 0x00, 0x7B, 0x00, 0x64, 0x00, 0x55, 0x00, 0x4B, 0x02, 0x58, 0x02,
     0x26, 0x06],
   .item (SensorItem.mk 0x06 "Indoor Humidity" "%" 1) [0x37],
   .aqi [0x00, 0x32, 0x00, 0x28, 0xFF, 0xFF, 0x00, 0x00, 0x80, 0x00, 0x7F, 0xFF]]

/-- A reading left in the sink by an earlier call. -/
def staleReading : EcowittSensorReading :=
  ⟨0x06, "Indoor Humidity", "%", 41⟩

/-- Sixteen CO2 value bytes. -/
def sampleCO2 : List Byte :=
  [0x00, 0xEB, 0x2D, 0x00, 0x7B, 0x00, 0x64, 0x00, 0x55, 0x00, 0x4B, 0x02, 0x58, 0x02, 0x26, 0x06]

/-- Twelve AQI value bytes. -/
def sampleAQI : List Byte :=
  [0x00, 0x32, 0x00, 0x28, 0xFF, 0xFF, 0x00, 0x00, 0x80, 0x00, 0x7F, 0xFF]

/-- A packet of 24 bytes: a CO2 record with the value bytes `sampleCO2` at offsets 6 to 21,
followed by the indoor-humidity record `0x06 0x37` at offsets 22 and 23. -/
def co2ThenHumidity : List Byte :=
  packetPrefix 0x00 0x18 ++ (0x70 :: sampleCO2 ++ [0x06, 0x37])

/-! ## The two clusters, field by field

The CO2 and AQI blocks are nine and six repetitions of one stanza (read, `push_back`, advance);
`field16` and `field8` are that stanza, and `co2Fields`, `aqiFields` chain them. -/

/-- A two-byte field: read through `convertBytesToInteger`, push `mk v`, advance by 2. -/
def field16 (responseBuffer : List Byte) (mk : Int → EcowittSensorReading)
    (st : Nat × List EcowittSensorReading) :
    Except (List EcowittSensorReading) (Nat × List EcowittSensorReading) := do
  let v ← readOr (convertBytesToInteger (responseBuffer.drop st.1) 2) st.2
  pure (st.1 + 2, st.2 ++ [mk v])

/-- A one-byte field: read `responseBuffer[index++]`, push `mk v`. -/
def field8 (responseBuffer : List Byte) (mk : Byte → EcowittSensorReading)
    (st : Nat × List EcowittSensorReading) :
    Except (List EcowittSensorReading) (Nat × List EcowittSensorReading) := do
  let v ← readOr responseBuffer[st.1]? st.2
  pure (st.1 + 1, st.2 ++ [mk v])

/-- The CO2 block as a chain of nine fields. -/
def co2Fields (responseBuffer : List Byte) (index : Nat)
    (readings : List EcowittSensorReading) :
    Except (List EcowittSensorReading) (Nat × List EcowittSensorReading) :=
  field16 responseBuffer (fun v => ⟨0x70, "CO2 Temperature", "°C", toFloat (toDouble ((toInt16 v : ℚ) / 10))⟩)
      (index, readings)
    >>= field8 responseBuffer (fun v => ⟨0x70, "CO2 Humidity", "%", toFloat (v.val : ℚ)⟩)
    >>= field16 responseBuffer (fun v => ⟨0x70, "CO2 PM10", "ug/m³", toFloat (toDouble ((toUInt16 v : ℚ) / 10))⟩)
    >>= field16 responseBuffer
      (fun v => ⟨0x70, "CO2 PM10 24h Avg", "ug/m³", toFloat (toDouble ((toUInt16 v : ℚ) / 10))⟩)
    >>= field16 responseBuffer (fun v => ⟨0x70, "CO2 PM2.5", "ug/m³", toFloat (toDouble ((toUInt16 v : ℚ) / 10))⟩)
    >>= field16 responseBuffer
      (fun v => ⟨0x70, "CO2 PM2.5 24h Avg", "ug/m³", toFloat (toDouble ((toUInt16 v : ℚ) / 10))⟩)
    >>= field16 responseBuffer (fun v => ⟨0x70, "CO2", "ppm", toFloat (toUInt16 v : ℚ)⟩)
    >>= field16 responseBuffer (fun v => ⟨0x70, "CO2 24h Avg", "ppm", toFloat (toUInt16 v : ℚ)⟩)
    >>= field8 responseBuffer (fun v => ⟨0x70, "CO2 Battery", "N/A", toFloat (v.val : ℚ)⟩)

/-- The AQI block as a chain of six fields. -/
def aqiFields (responseBuffer : List Byte) (index : Nat)
    (readings : List EcowittSensorReading) :
    Except (List EcowittSensorReading) (Nat × List EcowittSensorReading) :=
  field16 responseBuffer (fun v => ⟨0x71, "AQI (PM2.5)", "index", toFloat (toInt16 v : ℚ)⟩)
      (index, readings)
    >>= field16 responseBuffer (fun v => ⟨0x71, "AQI (PM2.5, 24h Avg)", "index", toFloat (toInt16 v : ℚ)⟩)
    >>= field16 responseBuffer (fun v => ⟨0x71, "AQI (PM2.5, Indoor)", "index", toFloat (toInt16 v : ℚ)⟩)
    >>= field16 responseBuffer
      (fun v => ⟨0x71, "AQI (PM2.5, Indoor, 24h Avg)", "index", toFloat (toInt16 v : ℚ)⟩)
    >>= field16 responseBuffer
      (fun v => ⟨0x71, "AQI (PM2.5, AQIN Sensor)", "index", toFloat (toInt16 v : ℚ)⟩)
    >>= field16 responseBuffer
      (fun v => ⟨0x71, "AQI (PM2.5, AQIN Sensor, 24h Avg)", "index", toFloat (toInt16 v : ℚ)⟩)

/-- The sink `rs`, possibly with more readings behind it. -/
def Extends (rs later : List EcowittSensorReading) : Prop :=
  ∃ more, later = rs ++ more

/-- A block that only appends: whether it ends well or at a read outside the array, the sink it
leaves extends `rs`. -/
def Appends (rs : List EcowittSensorReading) :
    Except (List EcowittSensorReading) (Nat × List EcowittSensorReading) → Prop
  | .ok st => Extends rs st.2
  | .error e => Extends rs e

/-- The sink a step leaves. -/
def Step.sink : Step → List EcowittSensorReading
  | .next _ readings => readings
  | .stop o => o.sink

/-! ## Vocabulary of the cursor and of the sink -/

/-- A pass that goes on leaves the cursor at least one byte behind `k`. -/
def Step.Advances (k : Nat) : Step → Prop
  | .next index _ => k + 1 ≤ index
  | .stop _ => True

/-- The sink a block leaves, whether it ends well or at a read outside the array. -/
def blockSink :
    Except (List EcowittSensorReading) (Nat × List EcowittSensorReading) →
      List EcowittSensorReading
  | .ok st => st.2
  | .error e => e

/-- The cursor a block leaves when it ends well, and `k` itself otherwise. -/
def blockCursor (k : Nat) :
    Except (List EcowittSensorReading) (Nat × List EcowittSensorReading) → Nat
  | .ok st => st.1
  | .error _ => k

/-- A reading that does not carry the description of the table's entry for `0x70` or for
`0x71`. -/
def NotCompositeEntry (r : EcowittSensorReading) : Prop :=
  r.description ≠ "CO2 Sensor" ∧ r.description ≠ "PM2.5 AQI"

/-- The tags of the `if` chain of lines 294 to 308: `0x01..0x07`, `0x0B..0x14` and `0x16`. -/
def Scaled (tag : Byte) : Prop :=
  (0x01 ≤ tag.val ∧ tag.val ≤ 0x07) ∨ (0x0B ≤ tag.val ∧ tag.val ≤ 0x14) ∨ tag.val = 0x16

instance : DecidablePred Scaled := fun tag => by
  unfold Scaled
  infer_instance

/-- A packet of 7 bytes whose payload is the outdoor-temperature tag `0x02`, of width 2, with one
byte, `0x06`, behind it. -/
def truncatedTemperature : List Byte :=
  packetPrefix 0x00 0x07 ++ [0x02, 0x06]

/-- A packet of 6 bytes whose payload is the CO2 tag `0x70` alone. -/
def bareCO2 : List Byte :=
  packetPrefix 0x00 0x06 ++ [0x70]

/-- A packet of 7 bytes whose payload is the tag `0x71` with one byte, the width the table
declares for it. -/
def aqiAsTableRecord : List Byte :=
  packetPrefix 0x00 0x07 ++ [0x71, 0x05]

theorem shiftOr_eq (value : Nat) (b : Byte) :
    shiftOr value b = (value * 256 + b.val) % 2 ^ 32 := by
  have hb : b.val < 2 ^ 8 := b.isLt
  unfold shiftOr
  rw [Nat.shiftLeft_eq, Nat.mul_comm value (2 ^ 8), ← Nat.mul_add_lt_is_or hb value]

theorem foldl_shiftOr (bytes : List Byte) (v : Nat) :
    bytes.foldl shiftOr (v % 2 ^ 32)
      = (bytes.foldl (fun v b => v * 256 + b.val) v) % 2 ^ 32 := by
  induction bytes generalizing v with
  | nil => simp
  | cons b bs ih =>
    have h : shiftOr (v % 2 ^ 32) b = (v * 256 + b.val) % 2 ^ 32 := by
      rw [shiftOr_eq]
      omega
    rw [List.foldl_cons, List.foldl_cons, h, ih]

theorem convertBytesToInteger_eq (buffer : List Byte) (size : Nat) (h : size ≤ buffer.length) :
    convertBytesToInteger buffer size = some (toInt32 (bigEndian (buffer.take size))) := by
  unfold convertBytesToInteger bigEndian
  rw [if_pos h]
  have := foldl_shiftOr (buffer.take size) 0
  simp only [Nat.zero_mod] at this
  rw [this]
  simp only [toInt32, Nat.mod_mod]

theorem convertBytesToInteger_none (buffer : List Byte) (size : Nat) (h : buffer.length < size) :
    convertBytesToInteger buffer size = none := by
  unfold convertBytesToInteger
  rw [if_neg (by omega)]

theorem bigEndian_pair (hi lo : Byte) : bigEndian [hi, lo] = hi.val * 256 + lo.val := by
  simp [bigEndian]

theorem convertBytesToInteger_two (hi lo : Byte) (rest : List Byte) :
    convertBytesToInteger (hi :: lo :: rest) 2 = some ((hi.val * 256 + lo.val : Nat) : Int) := by
  rw [convertBytesToInteger_eq _ _ (by simp)]
  have h1 : hi.val < 256 := hi.isLt
  have h2 : lo.val < 256 := lo.isLt
  simp only [List.take_succ_cons, List.take_zero, bigEndian_pair, toInt32]
  congr 1
  split <;> omega

theorem toInt16_natCast (u : Nat) : toInt16 (u : Int) = signed16 u := by
  unfold toInt16 signed16
  split <;> split <;> omega

set_option maxRecDepth 100000 in
theorem findItem_of_mem : ∀ entry ∈ sensorItems, findItem entry.itemCode = some entry := by
  decide!

/-! ## Rounding to a floating-point format -/

theorem leadingBit_eq (fuel n : Nat) (h : n ≤ fuel) : leadingBit fuel n = Nat.log2 n := by
  induction fuel generalizing n with
  | zero =>
    have : n = 0 := by omega
    subst this
    simp [leadingBit, Nat.log2_zero]
  | succ fuel ih =>
    rw [leadingBit, Nat.log2]
    by_cases h2 : 2 ≤ n
    · rw [if_pos h2, if_pos h2, ih (n / 2) (by omega)]
    · rw [if_neg h2, if_neg h2]

theorem pow_toNat_div (k : Int) :
    ((2 ^ k.toNat : Nat) : ℚ) / ((2 ^ (-k).toNat : Nat) : ℚ) = (2 : ℚ) ^ k := by
  rcases Int.eq_nat_or_neg k with ⟨m, rfl | rfl⟩
  · simp
  · cases m with
    | zero => simp
    | succ m =>
      have h1 : (-((m + 1 : Nat) : Int)).toNat = 0 := by omega
      have h2 : (- -((m + 1 : Nat) : Int)).toNat = m + 1 := by omega
      rw [h1, h2, zpow_neg, zpow_natCast]
      simp

theorem floorLog2_le (n d : Nat) (hn : 0 < n) (hd : 0 < d) :
    (2 : ℚ) ^ floorLog2 n d ≤ (n : ℚ) / (d : ℚ) := by
  have hdq : (0 : ℚ) < (d : ℚ) := by exact_mod_cast hd
  have ha : 2 ^ n.log2 ≤ n := Nat.log2_self_le (by omega)
  have hb : d < 2 ^ (d.log2 + 1) := Nat.lt_log2_self
  unfold floorLog2
  simp only [leadingBit_eq n n (Nat.le_refl n), leadingBit_eq d d (Nat.le_refl d)]
  split_ifs with hc
  · rw [← pow_toNat_div, div_le_div_iff₀ (by positivity) hdq, mul_comm]
    exact_mod_cast hc
  · have h2 : (2 : ℚ) ^ ((n.log2 : Int) - (d.log2 : Int) - 1)
        = (2 : ℚ) ^ n.log2 / (2 : ℚ) ^ (d.log2 + 1) := by
      rw [show ((n.log2 : Int) - (d.log2 : Int) - 1) = (n.log2 : Int) - ((d.log2 + 1 : Nat) : Int)
        by push_cast; ring, zpow_sub₀ (by norm_num), zpow_natCast, zpow_natCast]
    rw [h2]
    have haq : (2 : ℚ) ^ n.log2 ≤ (n : ℚ) := by exact_mod_cast ha
    have hbq : (d : ℚ) ≤ (2 : ℚ) ^ (d.log2 + 1) := by exact_mod_cast hb.le
    exact div_le_div₀ (by positivity) haq hdq hbq

theorem nearestEven_error (a b : Nat) (hb : 0 < b) :
    |(nearestEven a b : ℚ) - (a : ℚ) / (b : ℚ)| ≤ 1 / 2 := by
  have hbq : (0 : ℚ) < (b : ℚ) := by exact_mod_cast hb
  have hdm : (a : ℚ) = (b : ℚ) * ((a / b : Nat) : ℚ) + ((a % b : Nat) : ℚ) := by
    exact_mod_cast (Nat.div_add_mod a b).symm
  have hrem : ((a % b : Nat) : ℚ) < (b : ℚ) := by exact_mod_cast Nat.mod_lt a hb
  have hrem0 : (0 : ℚ) ≤ ((a % b : Nat) : ℚ) := by positivity
  have hq : (a : ℚ) / (b : ℚ) = ((a / b : Nat) : ℚ) + ((a % b : Nat) : ℚ) / (b : ℚ) := by
    rw [hdm]
    field_simp
    ring
  rw [abs_le, hq]
  unfold nearestEven
  simp only
  split_ifs with h1 h2 h3
  · have h1q : 2 * ((a % b : Nat) : ℚ) < (b : ℚ) := by exact_mod_cast h1
    have : ((a % b : Nat) : ℚ) / (b : ℚ) < 1 / 2 := by
      rw [div_lt_div_iff₀ hbq (by norm_num)]
      linarith
    have : (0 : ℚ) ≤ ((a % b : Nat) : ℚ) / (b : ℚ) := by positivity
    constructor <;> linarith
  · have h2q : (b : ℚ) < 2 * ((a % b : Nat) : ℚ) := by exact_mod_cast h2
    have h3 : (1 : ℚ) / 2 < ((a % b : Nat) : ℚ) / (b : ℚ) := by
      rw [div_lt_div_iff₀ (by norm_num) hbq]
      linarith
    have h4 : ((a % b : Nat) : ℚ) / (b : ℚ) < 1 := by
      rw [div_lt_one hbq]
      exact hrem
    push_cast
    constructor <;> linarith
  · have he : (b : ℚ) = 2 * ((a % b : Nat) : ℚ) := by
      have : b = 2 * (a % b) := by omega
      exact_mod_cast this
    have : ((a % b : Nat) : ℚ) / (b : ℚ) = 1 / 2 := by
      rw [div_eq_div_iff hbq.ne' (by norm_num)]
      linarith
    constructor <;> linarith
  · have he : (b : ℚ) = 2 * ((a % b : Nat) : ℚ) := by
      have : b = 2 * (a % b) := by omega
      exact_mod_cast this
    have : ((a % b : Nat) : ℚ) / (b : ℚ) = 1 / 2 := by
      rw [div_eq_div_iff hbq.ne' (by norm_num)]
      linarith
    push_cast
    constructor <;> linarith

theorem roundPos_error (p n d : Nat) (hn : 0 < n) (hd : 0 < d) :
    |roundPos p n d - (n : ℚ) / (d : ℚ)| ≤ (n : ℚ) / (d : ℚ) / 2 ^ p := by
  have hdq : (0 : ℚ) < (d : ℚ) := by exact_mod_cast hd
  have hlog := floorLog2_le n d hn hd
  unfold roundPos
  simp only
  generalize hk : floorLog2 n d - (p : Int) + 1 = k
  have hP : (0 : ℚ) < ((2 ^ k.toNat : Nat) : ℚ) := by positivity
  have hN : (0 : ℚ) < ((2 ^ (-k).toNat : Nat) : ℚ) := by positivity
  have hB : 0 < d * 2 ^ k.toNat := by positivity
  have herr := nearestEven_error (n * 2 ^ (-k).toNat) (d * 2 ^ k.toNat) hB
  have hsplit : (n : ℚ) / (d : ℚ)
      = ((n * 2 ^ (-k).toNat : Nat) : ℚ) / ((d * 2 ^ k.toNat : Nat) : ℚ)
        * (((2 ^ k.toNat : Nat) : ℚ) / ((2 ^ (-k).toNat : Nat) : ℚ)) := by
    push_cast
    field_simp
    ring
  have hdiff : (nearestEven (n * 2 ^ (-k).toNat) (d * 2 ^ k.toNat) : ℚ)
        * ((2 ^ k.toNat : Nat) : ℚ) / ((2 ^ (-k).toNat : Nat) : ℚ) - (n : ℚ) / (d : ℚ)
      = ((nearestEven (n * 2 ^ (-k).toNat) (d * 2 ^ k.toNat) : ℚ)
          - ((n * 2 ^ (-k).toNat : Nat) : ℚ) / ((d * 2 ^ k.toNat : Nat) : ℚ))
        * (2 : ℚ) ^ k := by
    rw [← pow_toNat_div k]
    conv_lhs => rw [hsplit]
    ring
  rw [hdiff, abs_mul, abs_of_pos (by positivity : (0 : ℚ) < (2 : ℚ) ^ k)]
  have hk2 : (2 : ℚ) ^ k = (2 : ℚ) ^ floorLog2 n d / 2 ^ p * 2 := by
    rw [← hk, zpow_add₀ (by norm_num), zpow_sub₀ (by norm_num), zpow_natCast, zpow_one]
  have hpp : (0 : ℚ) < (2 : ℚ) ^ p := by positivity
  calc |(nearestEven (n * 2 ^ (-k).toNat) (d * 2 ^ k.toNat) : ℚ)
          - ((n * 2 ^ (-k).toNat : Nat) : ℚ) / ((d * 2 ^ k.toNat : Nat) : ℚ)| * (2 : ℚ) ^ k
      ≤ 1 / 2 * (2 : ℚ) ^ k := by
        apply mul_le_mul_of_nonneg_right herr (by positivity)
    _ = (2 : ℚ) ^ floorLog2 n d / 2 ^ p := by rw [hk2]; ring
    _ ≤ (n : ℚ) / (d : ℚ) / 2 ^ p := by
        apply div_le_div_of_nonneg_right hlog hpp.le

theorem abs_eq_natAbs_div (q : ℚ) : |q| = (q.num.natAbs : ℚ) / (q.den : ℚ) := by
  have hd : (0 : ℚ) < (q.den : ℚ) := by exact_mod_cast q.den_pos
  have hq : q = (q.num : ℚ) / (q.den : ℚ) := (Rat.num_div_den q).symm
  have hn : ((q.num.natAbs : Nat) : ℚ) = |(q.num : ℚ)| := by
    rw [Nat.cast_natAbs, Int.cast_abs]
  rw [hn]
  conv_lhs => rw [hq]
  rw [abs_div, abs_of_pos hd]

theorem roundBits_error (p : Nat) (q : ℚ) : |roundBits p q - q| ≤ |q| / 2 ^ p := by
  unfold roundBits
  by_cases h0 : q = 0
  · rw [if_pos h0, h0]
    simp
  · rw [if_neg h0]
    have hnum : q.num ≠ 0 := by
      rwa [Ne, Rat.num_eq_zero]
    have hn : 0 < q.num.natAbs := Int.natAbs_pos.mpr hnum
    have herr := roundPos_error p q.num.natAbs q.den hn q.den_pos
    rw [← abs_eq_natAbs_div] at herr
    generalize roundPos p q.num.natAbs q.den = R at herr ⊢
    by_cases hneg : q.num < 0
    · rw [if_pos hneg]
      have habs : |q| = -q := abs_of_neg (Rat.num_neg.mp hneg)
      rw [habs] at herr ⊢
      have hflip : -R - q = -(R - -q) := by ring
      rw [hflip, abs_neg]
      exact herr
    · rw [if_neg hneg]
      have hpos : 0 < q.num := by omega
      have habs : |q| = q := abs_of_pos (Rat.num_pos.mp hpos)
      rw [habs] at herr ⊢
      exact herr

theorem roundPos_nonneg (p n d : Nat) : 0 ≤ roundPos p n d := by
  unfold roundPos
  positivity

theorem roundBits_nonneg (p : Nat) (q : ℚ) (h : 0 ≤ q) : 0 ≤ roundBits p q := by
  unfold roundBits
  split_ifs with h0 hneg
  · exact le_refl _
  · exact absurd (Rat.num_neg.mp hneg) (not_lt.mpr h)
  · exact roundPos_nonneg _ _ _

theorem nearestEven_one (a : Nat) : nearestEven a 1 = a := by
  simp [nearestEven, Nat.mod_one]

theorem roundPos_nat (p n : Nat) (hn : 0 < n) (hlt : n < 2 ^ p) : roundPos p n 1 = (n : ℚ) := by
  have hlog : n.log2 < p := (Nat.log2_lt (by omega)).mpr hlt
  have hself : 2 ^ n.log2 ≤ n := Nat.log2_self_le (by omega)
  have hfl : floorLog2 n 1 = (n.log2 : Int) := by
    unfold floorLog2
    have h1 : leadingBit 1 1 = 0 := by decide
    simp only [leadingBit_eq n n (Nat.le_refl n), h1]
    have ht : ((n.log2 : Int) - ((0 : Nat) : Int)).toNat = n.log2 := by simp
    have ht2 : (-((n.log2 : Int) - ((0 : Nat) : Int))).toNat = 0 := by simp
    rw [ht, ht2, if_pos (by simpa using hself)]
    simp
  unfold roundPos
  simp only [hfl]
  have hk : ((n.log2 : Int) - (p : Int) + 1).toNat = 0 := by omega
  rw [hk, pow_zero, Nat.mul_one, nearestEven_one]
  have hN : (0 : ℚ) < ((2 ^ (-((n.log2 : Int) - (p : Int) + 1)).toNat : Nat) : ℚ) := by positivity
  push_cast
  field_simp

theorem roundBits_intCast (p : Nat) (z : Int) (h : z.natAbs < 2 ^ p) :
    roundBits p (z : ℚ) = (z : ℚ) := by
  unfold roundBits
  by_cases h0 : (z : ℚ) = 0
  · rw [if_pos h0, h0]
  · rw [if_neg h0]
    have hz : z ≠ 0 := by
      intro e
      exact h0 (by rw [e]; simp)
    have hn : 0 < z.natAbs := Int.natAbs_pos.mpr hz
    rw [Rat.num_intCast, Rat.den_intCast, roundPos_nat p z.natAbs hn h]
    by_cases hneg : z < 0
    · rw [if_pos hneg]
      have hz1 : (z.natAbs : Int) = -z := by omega
      rw [← Int.cast_natCast, hz1]
      push_cast
      ring
    · rw [if_neg hneg]
      have hz1 : (z.natAbs : Int) = z := by omega
      rw [← Int.cast_natCast, hz1]

theorem roundBits_natCast (p n : Nat) (h : n < 2 ^ p) : roundBits p (n : ℚ) = (n : ℚ) := by
  have := roundBits_intCast p (n : Int) (by simpa using h)
  simpa using this

theorem toFloat_toDouble_error (q : ℚ) : |toFloat (toDouble q) - q| ≤ |q| / 2 ^ 23 := by
  unfold toFloat toDouble
  have h1 := roundBits_error 53 q
  have h2 := roundBits_error 24 (roundBits 53 q)
  have hq : 0 ≤ |q| := abs_nonneg q
  have h3 : |roundBits 53 q| ≤ |q| + |q| / 2 ^ 53 := by
    have := abs_sub_abs_le_abs_sub (roundBits 53 q) q
    linarith
  have h4 : |roundBits 24 (roundBits 53 q) - q|
      ≤ |roundBits 24 (roundBits 53 q) - roundBits 53 q| + |roundBits 53 q - q| := by
    have := abs_add (roundBits 24 (roundBits 53 q) - roundBits 53 q) (roundBits 53 q - q)
    simpa using this
  have h5 : |roundBits 53 q| / 2 ^ 24 ≤ (|q| + |q| / 2 ^ 53) / 2 ^ 24 :=
    div_le_div_of_nonneg_right h3 (by positivity)
  have h6 : (|q| + |q| / 2 ^ 53) / 2 ^ 24 + |q| / 2 ^ 53 ≤ |q| / 2 ^ 23 := by
    have : (|q| + |q| / 2 ^ 53) / 2 ^ 24 + |q| / 2 ^ 53
        = |q| * ((1 + 1 / 2 ^ 53) / 2 ^ 24 + 1 / 2 ^ 53) := by ring
    rw [this, div_eq_mul_one_div |q| (2 ^ 23)]
    apply mul_le_mul_of_nonneg_left _ hq
    norm_num
  linarith

theorem toFloat_natCast (n : Nat) (h : n < 2 ^ 24) : toFloat (n : ℚ) = (n : ℚ) :=
  roundBits_natCast 24 n h

theorem toFloat_byte (b : Byte) : toFloat (b.val : ℚ) = (b.val : ℚ) :=
  toFloat_natCast b.val (Nat.lt_trans b.isLt (by decide))

theorem toFloat_pair (hi lo : Byte) :
    toFloat ((hi.val * 256 + lo.val : Nat) : ℚ) = ((hi.val * 256 + lo.val : Nat) : ℚ) := by
  have h1 : hi.val < 256 := hi.isLt
  have h2 : lo.val < 256 := lo.isLt
  exact toFloat_natCast _ (by omega)

theorem toFloat_signed16 (u : Nat) :
    toFloat ((signed16 u : Int) : ℚ) = ((signed16 u : Int) : ℚ) := by
  apply roundBits_intCast
  unfold signed16
  split <;> omega

/-! ## Moving a decode to the right

Decoding `l` from cursor `k` and decoding `pre ++ l` from cursor `pre.length + k` do the same. -/

theorem getElem?_shift (pre l : List Byte) (k : Nat) : (pre ++ l)[pre.length + k]? = l[k]? := by
  rw [List.getElem?_append_right (Nat.le_add_right _ _), Nat.add_sub_cancel_left]

theorem drop_shift (pre l : List Byte) (k : Nat) :
    (pre ++ l).drop (pre.length + k) = l.drop k :=
  List.drop_append k

theorem decodeCO2_shift (pre l : List Byte) (k : Nat) (rs : List EcowittSensorReading) :
    decodeCO2 (pre ++ l) (pre.length + k) rs
      = (fun p => (pre.length + p.1, p.2)) <$> decodeCO2 l k rs := by
  simp only [decodeCO2, Nat.add_assoc, getElem?_shift, drop_shift, map_bind, map_pure]

theorem decodeAQI_shift (pre l : List Byte) (k : Nat) (rs : List EcowittSensorReading) :
    decodeAQI (pre ++ l) (pre.length + k) rs
      = (fun p => (pre.length + p.1, p.2)) <$> decodeAQI l k rs := by
  simp only [decodeAQI, Nat.add_assoc, getElem?_shift, drop_shift, map_bind, map_pure]

theorem itemValue_shift (pre l : List Byte) (k : Nat) (item : SensorItem) :
    itemValue (pre ++ l) (pre.length + k) item = itemValue l k item := by
  simp only [itemValue, getElem?_shift, drop_shift]

theorem loopBody_shift (pre l : List Byte) (n : Int) (k : Nat)
    (rs : List EcowittSensorReading) :
    loopBody (pre ++ l) (pre.length + n) (pre.length + k) rs
      = (loopBody l n k rs).shift pre.length := by
  unfold loopBody
  rw [getElem?_shift]
  cases l[k]? with
  | none => rfl
  | some itemCode =>
    simp only [Nat.add_assoc, decodeCO2_shift, decodeAQI_shift, itemValue_shift]
    by_cases h70 : itemCode = 0x70
    · simp only [h70, if_true]
      cases decodeCO2 l (k + 1) rs <;> rfl
    · by_cases h71 : itemCode = 0x71
      · simp only [h71, if_true, if_neg h70]
        cases decodeAQI l (k + 1) rs <;> rfl
      · simp only [if_neg h70, if_neg h71]
        cases findItem itemCode with
        | none => rfl
        | some item =>
          have hg : ((((pre.length + (k + 1) : Nat) : Int) + (item.size : Int)
                ≤ (pre.length : Int) + n)) ↔ (((k + 1 : Nat) : Int) + (item.size : Int) ≤ n) := by
            push_cast
            omega
          simp only [hg]
          by_cases hle : ((k + 1 : Nat) : Int) + (item.size : Int) ≤ n
          · simp only [if_pos hle]
            cases itemValue l (k + 1) item <;> rfl
          · simp only [if_neg hle]
            rfl

theorem decodeLoop_shift (pre l : List Byte) (n : Int) (fuel k : Nat)
    (rs : List EcowittSensorReading) :
    decodeLoop (pre ++ l) (pre.length + n) fuel (pre.length + k) rs = decodeLoop l n fuel k rs := by
  have hlt : ∀ j : Nat,
      ((((pre.length + j : Nat) : Int) < (pre.length : Int) + n)) ↔ ((j : Int) < n) := by
    intro j
    push_cast
    omega
  induction fuel generalizing k rs with
  | zero => simp only [decodeLoop, hlt]
  | succ fuel ih =>
    simp only [decodeLoop, hlt, loopBody_shift]
    by_cases hk : (k : Int) < n
    · simp only [if_pos hk]
      cases loopBody l n k rs with
      | next index readings => exact ih index readings
      | stop o => rfl
    · simp only [if_neg hk]

/-! ## Casts of a reconstructed integer -/

theorem toInt16_toInt32 (n : Nat) : toInt16 (toInt32 n) = signed16 n := by
  unfold toInt16 toInt32 signed16
  split <;> split <;> split <;> omega

theorem toUInt16_toInt32 (n : Nat) : toUInt16 (toInt32 n) = ((n % 65536 : Nat) : Int) := by
  unfold toUInt16 toInt32
  split <;> omega

theorem toUInt32_toInt32 (n : Nat) : toUInt32 (toInt32 n) = ((n % 2 ^ 32 : Nat) : Int) := by
  unfold toUInt32 toInt32
  split <;> omega

theorem toInt32_of_lt (n : Nat) (h : n < 2 ^ 31) : toInt32 n = (n : Int) := by
  unfold toInt32
  split <;> omega

theorem bigEndian_append_singleton (bytes : List Byte) (b : Byte) :
    bigEndian (bytes ++ [b]) = bigEndian bytes * 256 + b.val := by
  simp [bigEndian, List.foldl_append]

theorem bigEndian_lt (bytes : List Byte) : bigEndian bytes < 256 ^ bytes.length := by
  induction bytes using List.reverseRecOn with
  | nil => simp [bigEndian]
  | append_singleton bs b ih =>
    have hb : b.val < 256 := b.isLt
    rw [bigEndian_append_singleton, List.length_append, List.length_singleton, pow_succ]
    nlinarith

theorem toUInt16_pair (hi lo : Byte) :
    toUInt16 ((hi.val * 256 + lo.val : Nat) : Int) = ((hi.val * 256 + lo.val : Nat) : Int) := by
  have h1 : hi.val < 256 := hi.isLt
  have h2 : lo.val < 256 := lo.isLt
  unfold toUInt16
  omega

theorem u16At_cons (b : Byte) (value : List Byte) (k : Nat) :
    u16At (b :: value) (k + 1) = u16At value k := by
  simp [u16At]

theorem u16At_zero (hi lo : Byte) (value : List Byte) :
    u16At (hi :: lo :: value) 0 = hi.val * 256 + lo.val := by
  simp [u16At, bigEndian]

theorem byteAt_cons (b : Byte) (value : List Byte) (k : Nat) :
    byteAt (b :: value) (k + 1) = byteAt value k := by
  simp [byteAt]

theorem byteAt_zero (b : Byte) (value : List Byte) : byteAt (b :: value) 0 = b.val := by
  simp [byteAt]

/-! ## The clusters on their value bytes -/

theorem decodeCO2_eq (buf : List Byte) (index : Nat) (rs : List EcowittSensorReading) :
    decodeCO2 buf index rs = co2Fields buf index rs := by
  simp only [decodeCO2, co2Fields, field16, field8, bind_assoc, pure_bind]

theorem decodeAQI_eq (buf : List Byte) (index : Nat) (rs : List EcowittSensorReading) :
    decodeAQI buf index rs = aqiFields buf index rs := by
  simp only [decodeAQI, aqiFields, field16, bind_assoc, pure_bind]

theorem decodeCO2_cluster (b0 b1 b2 b3 b4 b5 b6 b7 b8 b9 b10 b11 b12 b13 b14 b15 : Byte) (rest : List Byte)
    (rs : List EcowittSensorReading) :
    decodeCO2 (b0 :: b1 :: b2 :: b3 :: b4 :: b5 :: b6 :: b7 :: b8 :: b9 :: b10 :: b11 :: b12 :: b13 :: b14 :: b15 :: rest) 0 rs
      = .ok (16, rs ++ co2Readings [b0, b1, b2, b3, b4, b5, b6, b7, b8, b9, b10, b11, b12, b13, b14, b15]) := by
  simp only [decodeCO2_eq, co2Fields, field16, field8, readOr, bind, Except.bind, pure,
    Except.pure, List.drop_succ_cons, List.drop_zero, convertBytesToInteger_two,
    List.getElem?_cons_succ, List.getElem?_cons_zero, Nat.reduceAdd, toInt16_natCast,
    toUInt16_pair, co2Readings, u16At_cons, u16At_zero, byteAt_cons, byteAt_zero,
    List.append_assoc, List.singleton_append, Int.cast_natCast, List.cons_append,
    List.nil_append, toFloat_byte, toFloat_pair]

theorem decodeAQI_cluster (b0 b1 b2 b3 b4 b5 b6 b7 b8 b9 b10 b11 : Byte) (rest : List Byte)
    (rs : List EcowittSensorReading) :
    decodeAQI (b0 :: b1 :: b2 :: b3 :: b4 :: b5 :: b6 :: b7 :: b8 :: b9 :: b10 :: b11 :: rest) 0 rs
      = .ok (12, rs ++ aqiReadings [b0, b1, b2, b3, b4, b5, b6, b7, b8, b9, b10, b11]) := by
  simp only [decodeAQI_eq, aqiFields, field16, readOr, bind, Except.bind, pure,
    Except.pure, List.drop_succ_cons, List.drop_zero, convertBytesToInteger_two,
    Nat.reduceAdd, toInt16_natCast, aqiReadings, u16At_cons, u16At_zero,
    List.append_assoc, List.singleton_append, List.cons_append, List.nil_append,
    toFloat_signed16]

theorem exists_cons_of_length (l : List Byte) (n : Nat) (h : l.length = n + 1) :
    ∃ b t, l = b :: t ∧ t.length = n := by
  cases l with
  | nil => simp at h
  | cons b t => exact ⟨b, t, rfl, by simpa using h⟩

theorem decodeCO2_value (value rest : List Byte) (h : value.length = 16)
    (rs : List EcowittSensorReading) :
    decodeCO2 (value ++ rest) 0 rs = .ok (16, rs ++ co2Readings value) := by
  obtain ⟨b0, t0, rfl, h0⟩ := exists_cons_of_length value 15 h
  obtain ⟨b1, t1, rfl, h1⟩ := exists_cons_of_length t0 14 h0
  obtain ⟨b2, t2, rfl, h2⟩ := exists_cons_of_length t1 13 h1
  obtain ⟨b3, t3, rfl, h3⟩ := exists_cons_of_length t2 12 h2
  obtain ⟨b4, t4, rfl, h4⟩ := exists_cons_of_length t3 11 h3
  obtain ⟨b5, t5, rfl, h5⟩ := exists_cons_of_length t4 10 h4
  obtain ⟨b6, t6, rfl, h6⟩ := exists_cons_of_length t5 9 h5
  obtain ⟨b7, t7, rfl, h7⟩ := exists_cons_of_length t6 8 h6
  obtain ⟨b8, t8, rfl, h8⟩ := exists_cons_of_length t7 7 h7
  obtain ⟨b9, t9, rfl, h9⟩ := exists_cons_of_length t8 6 h8
  obtain ⟨b10, t10, rfl, h10⟩ := exists_cons_of_length t9 5 h9
  obtain ⟨b11, t11, rfl, h11⟩ := exists_cons_of_length t10 4 h10
  obtain ⟨b12, t12, rfl, h12⟩ := exists_cons_of_length t11 3 h11
  obtain ⟨b13, t13, rfl, h13⟩ := exists_cons_of_length t12 2 h12
  obtain ⟨b14, t14, rfl, h14⟩ := exists_cons_of_length t13 1 h13
  obtain ⟨b15, t15, rfl, h15⟩ := exists_cons_of_length t14 0 h14
  have hnil : t15 = [] := List.length_eq_zero.mp h15
  subst hnil
  exact decodeCO2_cluster b0 b1 b2 b3 b4 b5 b6 b7 b8 b9 b10 b11 b12 b13 b14 b15 rest rs

theorem decodeAQI_value (value rest : List Byte) (h : value.length = 12)
    (rs : List EcowittSensorReading) :
    decodeAQI (value ++ rest) 0 rs = .ok (12, rs ++ aqiReadings value) := by
  obtain ⟨b0, t0, rfl, h0⟩ := exists_cons_of_length value 11 h
  obtain ⟨b1, t1, rfl, h1⟩ := exists_cons_of_length t0 10 h0
  obtain ⟨b2, t2, rfl, h2⟩ := exists_cons_of_length t1 9 h1
  obtain ⟨b3, t3, rfl, h3⟩ := exists_cons_of_length t2 8 h2
  obtain ⟨b4, t4, rfl, h4⟩ := exists_cons_of_length t3 7 h3
  obtain ⟨b5, t5, rfl, h5⟩ := exists_cons_of_length t4 6 h4
  obtain ⟨b6, t6, rfl, h6⟩ := exists_cons_of_length t5 5 h5
  obtain ⟨b7, t7, rfl, h7⟩ := exists_cons_of_length t6 4 h6
  obtain ⟨b8, t8, rfl, h8⟩ := exists_cons_of_length t7 3 h7
  obtain ⟨b9, t9, rfl, h9⟩ := exists_cons_of_length t8 2 h8
  obtain ⟨b10, t10, rfl, h10⟩ := exists_cons_of_length t9 1 h9
  obtain ⟨b11, t11, rfl, h11⟩ := exists_cons_of_length t10 0 h10
  have hnil : t11 = [] := List.length_eq_zero.mp h11
  subst hnil
  exact decodeAQI_cluster b0 b1 b2 b3 b4 b5 b6 b7 b8 b9 b10 b11 rest rs

/-! ## One record at the cursor -/

set_option maxRecDepth 100000 in
theorem size_pos_of_mem : ∀ entry ∈ sensorItems, 1 ≤ entry.size := by
  decide!

theorem convertBytesToInteger_append (value rest : List Byte) (size : Nat)
    (h : size ≤ value.length) :
    convertBytesToInteger (value ++ rest) size = convertBytesToInteger value size := by
  rw [convertBytesToInteger_eq _ _ (by rw [List.length_append]; omega),
    convertBytesToInteger_eq _ _ h, List.take_append_of_le_length h]

theorem itemValue_complete (entry : SensorItem) (value rest : List Byte)
    (h : value.length = entry.size) (hpos : 1 ≤ entry.size) :
    itemValue (value ++ rest) 0 entry = some (catalogValue entry value) := by
  have hc : convertBytesToInteger (value ++ rest) entry.size
      = some (toInt32 (bigEndian (value.take entry.size))) := by
    rw [convertBytesToInteger_append _ _ _ (by omega), convertBytesToInteger_eq _ _ (by omega)]
  have hc0 : convertBytesToInteger value entry.size
      = some (toInt32 (bigEndian (value.take entry.size))) :=
    convertBytesToInteger_eq _ _ (by omega)
  obtain ⟨b, t, rfl, -⟩ := exists_cons_of_length value (entry.size - 1) (by omega)
  rw [List.cons_append] at hc
  simp only [itemValue, catalogValue, List.drop_zero, hc, hc0, List.cons_append,
    List.getElem?_cons_zero, Option.map_some']
  split_ifs <;> rfl

theorem loopBody_record (r : Record) (hr : r.Complete) (rest : List Byte) (n : Int)
    (hn : (r.encode.length : Int) ≤ n) (rs : List EcowittSensorReading) :
    loopBody (r.encode ++ rest) n 0 rs = .next r.encode.length (rs ++ r.readings) := by
  cases r with
  | item entry value =>
    obtain ⟨hmem, h70, h71, hlen⟩ := hr
    have hv := itemValue_shift [entry.itemCode] (value ++ rest) 0 entry
    rw [itemValue_complete entry value rest hlen (size_pos_of_mem entry hmem)] at hv
    have hg : (((0 + 1 : Nat) : Int) + (entry.size : Int) ≤ n) := by
      simp only [Record.encode, List.length_cons, hlen] at hn
      push_cast at hn ⊢
      omega
    simp only [List.length_singleton, List.singleton_append, Nat.add_zero] at hv
    simp only [loopBody, Record.encode, List.cons_append, List.getElem?_cons_zero, if_neg h70,
      if_neg h71, findItem_of_mem entry hmem, if_pos hg, hv, Record.readings, List.length_cons,
      hlen]
    congr 1
    omega
  | co2 value =>
    have hlen : value.length = 16 := hr
    have hv := decodeCO2_shift [0x70] (value ++ rest) 0 rs
    rw [decodeCO2_value value rest hlen rs] at hv
    simp only [List.length_singleton, List.singleton_append, Nat.add_zero] at hv
    simp only [loopBody, Record.encode, List.cons_append, List.getElem?_cons_zero, if_true, hv,
      Record.readings, List.length_cons, hlen]
    rfl
  | aqi value =>
    have hlen : value.length = 12 := hr
    have hv := decodeAQI_shift [0x71] (value ++ rest) 0 rs
    rw [decodeAQI_value value rest hlen rs] at hv
    have hne : ¬ ((0x71 : Byte) = 0x70) := by decide
    simp only [List.length_singleton, List.singleton_append, Nat.add_zero] at hv
    simp only [loopBody, Record.encode, List.cons_append, List.getElem?_cons_zero, if_true,
      if_neg hne, hv, Record.readings, List.length_cons, hlen]
    rfl

theorem encode_length_pos (r : Record) : 1 ≤ r.encode.length := by
  cases r <;> simp [Record.encode]

theorem payload_cons (r : Record) (recs : List Record) :
    payload (r :: recs) = r.encode ++ payload recs := by
  simp [payload]

theorem readingsOf_cons (r : Record) (recs : List Record) :
    readingsOf (r :: recs) = r.readings ++ readingsOf recs := by
  simp [readingsOf]

theorem length_le_payload (recs : List Record) : recs.length ≤ (payload recs).length := by
  induction recs with
  | nil => simp
  | cons r recs ih =>
    have := encode_length_pos r
    rw [payload_cons, List.length_append, List.length_cons]
    omega

/-- Complete records at the cursor are decoded one per pass, and the loop goes on behind them. -/
theorem decodeLoop_records (recs : List Record) (h : ∀ r ∈ recs, r.Complete)
    (tail : List Byte) (fuel : Nat) (hf : recs.length ≤ fuel)
    (rs : List EcowittSensorReading) :
    decodeLoop (payload recs ++ tail) ((payload recs ++ tail).length : Nat) fuel 0 rs
      = decodeLoop tail (tail.length : Nat) (fuel - recs.length) 0 (rs ++ readingsOf recs) := by
  induction recs generalizing fuel rs with
  | nil => simp [payload, readingsOf]
  | cons r recs ih =>
    obtain ⟨fuel, rfl⟩ : ∃ f, fuel = f + 1 := ⟨fuel - 1, by simp at hf; omega⟩
    have hr : r.Complete := h r (List.mem_cons_self _ _)
    have hpos := encode_length_pos r
    have hlen : (((payload (r :: recs) ++ tail).length : Nat) : Int)
        = (r.encode.length : Int) + (((payload recs ++ tail).length : Nat) : Int) := by
      rw [payload_cons]
      simp only [List.length_append]
      push_cast
      omega
    have hlt : ((0 : Nat) : Int) < (((payload (r :: recs) ++ tail).length : Nat) : Int) := by
      rw [hlen]
      omega
    have hbody := loopBody_record r hr (payload recs ++ tail)
      (((payload (r :: recs) ++ tail).length : Nat) : Int) (by rw [hlen]; omega) rs
    have hshift := decodeLoop_shift r.encode (payload recs ++ tail)
      (((payload recs ++ tail).length : Nat) : Int) fuel 0 (rs ++ r.readings)
    rw [← hlen] at hshift
    have happ : payload (r :: recs) ++ tail = r.encode ++ (payload recs ++ tail) := by
      rw [payload_cons, List.append_assoc]
    rw [decodeLoop, if_pos hlt]
    rw [happ] at hbody ⊢
    rw [hbody]
    simp only [Nat.add_zero] at hshift
    rw [← happ] at hshift
    simp only
    rw [← happ, hshift, ih (fun x hx => h x (List.mem_cons_of_mem _ hx)) fuel
      (by simp at hf; omega), readingsOf_cons, List.append_assoc]
    congr 1
    simp

/-- A packet behind a good prefix is decoded by the loop run on its payload alone. -/
theorem readAndDecode_packetPrefix (prior : List EcowittSensorReading) (b3 b4 : Byte)
    (bytes : List Byte) :
    readAndDecode prior (packetPrefix b3 b4 ++ bytes) ((packetPrefix b3 b4 ++ bytes).length : Nat)
      = decodeLoop bytes (bytes.length : Nat) bytes.length 0 [] := by
  have hshift := decodeLoop_shift (packetPrefix b3 b4) bytes (bytes.length : Nat)
    bytes.length 0 []
  have h5 : (packetPrefix b3 b4).length = 5 := rfl
  have hlen : (((packetPrefix b3 b4 ++ bytes).length : Nat) : Int) = 5 + (bytes.length : Int) := by
    rw [List.length_append, h5]
    push_cast
    rfl
  rw [h5] at hshift
  have hge : ¬ ((5 : Int) + (bytes.length : Int) < 5) := by omega
  have hfuel : ((5 : Int) + (bytes.length : Int) - 5).toNat = bytes.length := by
    simp
  rw [hlen]
  simp only [readAndDecode, clear, if_neg hge, hfuel]
  simpa [packetPrefix] using hshift

/-! ## The sink only grows -/

theorem Extends.refl (rs : List EcowittSensorReading) : Extends rs rs :=
  ⟨[], (List.append_nil rs).symm⟩

theorem Extends.trans {a b c : List EcowittSensorReading} (h1 : Extends a b)
    (h2 : Extends b c) : Extends a c := by
  obtain ⟨m1, rfl⟩ := h1
  obtain ⟨m2, rfl⟩ := h2
  exact ⟨m1 ++ m2, List.append_assoc a m1 m2⟩

theorem Extends.push (rs : List EcowittSensorReading) (r : EcowittSensorReading) :
    Extends rs (rs ++ [r]) :=
  ⟨[r], rfl⟩

theorem field16_appends (buf : List Byte) (mk : Int → EcowittSensorReading)
    (st : Nat × List EcowittSensorReading) : Appends st.2 (field16 buf mk st) := by
  unfold field16
  cases convertBytesToInteger (buf.drop st.1) 2 with
  | none => exact Extends.refl _
  | some v => exact Extends.push _ _

theorem field8_appends (buf : List Byte) (mk : Byte → EcowittSensorReading)
    (st : Nat × List EcowittSensorReading) : Appends st.2 (field8 buf mk st) := by
  unfold field8
  cases buf[st.1]? with
  | none => exact Extends.refl _
  | some v => exact Extends.push _ _

theorem Appends.bind {rs : List EcowittSensorReading}
    {x : Except (List EcowittSensorReading) (Nat × List EcowittSensorReading)}
    {f : Nat × List EcowittSensorReading →
      Except (List EcowittSensorReading) (Nat × List EcowittSensorReading)}
    (hx : Appends rs x) (hf : ∀ st, Appends st.2 (f st)) : Appends rs (x >>= f) := by
  cases x with
  | error e => exact hx
  | ok st =>
    have h := hf st
    show Appends rs (f st)
    cases hfst : f st with
    | error e =>
      rw [hfst] at h
      exact Extends.trans hx h
    | ok st2 =>
      rw [hfst] at h
      exact Extends.trans hx h

theorem decodeCO2_appends (buf : List Byte) (index : Nat) (rs : List EcowittSensorReading) :
    Appends rs (decodeCO2 buf index rs) := by
  rw [decodeCO2_eq]
  unfold co2Fields
  refine Appends.bind (Appends.bind (Appends.bind (Appends.bind (Appends.bind (Appends.bind
    (Appends.bind (Appends.bind ?_ ?_) ?_) ?_) ?_) ?_) ?_) ?_) ?_
  · exact field16_appends buf _ (index, rs)
  all_goals first
    | exact fun st => field16_appends buf _ st
    | exact fun st => field8_appends buf _ st

theorem decodeAQI_appends (buf : List Byte) (index : Nat) (rs : List EcowittSensorReading) :
    Appends rs (decodeAQI buf index rs) := by
  rw [decodeAQI_eq]
  unfold aqiFields
  refine Appends.bind (Appends.bind (Appends.bind (Appends.bind (Appends.bind ?_ ?_) ?_) ?_)
    ?_) ?_
  · exact field16_appends buf _ (index, rs)
  all_goals exact fun st => field16_appends buf _ st

theorem loopBody_extends (buf : List Byte) (n : Int) (k : Nat)
    (rs : List EcowittSensorReading) : Extends rs (loopBody buf n k rs).sink := by
  unfold loopBody
  cases buf[k]? with
  | none => exact Extends.refl _
  | some itemCode =>
    simp only
    split_ifs with h70 h71
    · have h := decodeCO2_appends buf (k + 1) rs
      cases hd : decodeCO2 buf (k + 1) rs with
      | error e => rw [hd] at h; exact h
      | ok st => rw [hd] at h; exact h
    · have h := decodeAQI_appends buf (k + 1) rs
      cases hd : decodeAQI buf (k + 1) rs with
      | error e => rw [hd] at h; exact h
      | ok st => rw [hd] at h; exact h
    · cases findItem itemCode with
      | none => exact Extends.refl _
      | some item =>
        simp only
        split_ifs
        · cases itemValue buf (k + 1) item with
          | none => exact Extends.refl _
          | some value => exact Extends.push _ _
        · exact Extends.refl _

theorem decodeLoop_extends (buf : List Byte) (n : Int) (fuel k : Nat)
    (rs : List EcowittSensorReading) : Extends rs (decodeLoop buf n fuel k rs).sink := by
  induction fuel generalizing k rs with
  | zero =>
    unfold decodeLoop
    split_ifs <;> exact Extends.refl _
  | succ fuel ih =>
    unfold decodeLoop
    split_ifs
    · have h := loopBody_extends buf n k rs
      cases hb : loopBody buf n k rs with
      | next index readings =>
        rw [hb] at h
        exact Extends.trans h (ih index readings)
      | stop o =>
        rw [hb] at h
        exact h
    · exact Extends.refl _

/-! ## Whole packets -/

theorem decodeLoop_nil (fuel : Nat) (rs : List EcowittSensorReading) :
    decodeLoop [] ((([] : List Byte).length : Nat) : Int) fuel 0 rs = .returned true rs := by
  cases fuel <;> simp [decodeLoop]

/-- A packet of complete records behind a good prefix, with anything behind them. -/
theorem readAndDecode_records (prior : List EcowittSensorReading) (b3 b4 : Byte)
    (recs : List Record) (h : ∀ r ∈ recs, r.Complete) (tail : List Byte) :
    readAndDecode prior (packetPrefix b3 b4 ++ (payload recs ++ tail))
        ((packetPrefix b3 b4 ++ (payload recs ++ tail)).length : Nat)
      = decodeLoop tail (tail.length : Nat) ((payload recs ++ tail).length - recs.length) 0
          (readingsOf recs) := by
  have hle : recs.length ≤ (payload recs ++ tail).length := by
    have := length_le_payload recs
    rw [List.length_append]
    omega
  rw [readAndDecode_packetPrefix, decodeLoop_records recs h tail _ hle, List.nil_append]

theorem readAndDecode_payload (prior : List EcowittSensorReading) (b3 b4 : Byte)
    (recs : List Record) (h : ∀ r ∈ recs, r.Complete) :
    readAndDecode prior (packetPrefix b3 b4 ++ payload recs)
        ((packetPrefix b3 b4 ++ payload recs).length : Nat)
      = .returned true (readingsOf recs) := by
  have hr := readAndDecode_records prior b3 b4 recs h []
  rw [decodeLoop_nil, List.append_nil] at hr
  exact hr

/-! ## Scaled values of table records -/

set_option maxRecDepth 100000 in
theorem temperature_entries : ∀ entry ∈ sensorItems,
    1 ≤ entry.itemCode.val → entry.itemCode.val ≤ 5 → entry.size = 2 ∧ entry.units = "°C" := by
  decide!

set_option maxRecDepth 100000 in
theorem exists_entry_temperature : ∀ t : Byte, 1 ≤ t.val → t.val ≤ 5 →
    ∃ entry ∈ sensorItems, entry.itemCode = t := by
  decide!

set_option maxRecDepth 100000 in
theorem unsigned_entries : ∀ entry ∈ sensorItems,
    (entry.itemCode.val = 0x0B ∨ entry.itemCode.val = 0x0C ∨ entry.itemCode.val = 0x16 ∨
      (0x0D ≤ entry.itemCode.val ∧ entry.itemCode.val ≤ 0x14)) →
    entry.size = (if 0x12 ≤ entry.itemCode.val ∧ entry.itemCode.val ≤ 0x14 then 4 else 2) := by
  decide!

set_option maxRecDepth 100000 in
theorem exists_entry_unsigned : ∀ t : Byte,
    (t.val = 0x0B ∨ t.val = 0x0C ∨ t.val = 0x16 ∨ (0x0D ≤ t.val ∧ t.val ≤ 0x14)) →
    ∃ entry ∈ sensorItems, entry.itemCode = t := by
  decide!

theorem catalogValue_temperature (entry : SensorItem) (hi lo : Byte)
    (h1 : 1 ≤ entry.itemCode.val) (h5 : entry.itemCode.val ≤ 5) (hsize : entry.size = 2) :
    catalogValue entry [hi, lo]
      = toFloat (toDouble ((signed16 (hi.val * 256 + lo.val) : ℚ) / 10)) := by
  unfold catalogValue itemValue
  rw [if_pos ⟨h1, h5⟩, hsize, List.drop_zero, convertBytesToInteger_two, Option.map_some',
    Option.getD_some, toInt16_natCast]

theorem catalogValue_unsigned (entry : SensorItem) (value : List Byte)
    (ht : entry.itemCode.val = 0x0B ∨ entry.itemCode.val = 0x0C ∨ entry.itemCode.val = 0x16 ∨
      (0x0D ≤ entry.itemCode.val ∧ entry.itemCode.val ≤ 0x14))
    (hlen : value.length = entry.size)
    (hsize : entry.size
      = (if 0x12 ≤ entry.itemCode.val ∧ entry.itemCode.val ≤ 0x14 then 4 else 2)) :
    catalogValue entry value = toFloat (toDouble ((bigEndian value : ℚ) / 10)) := by
  have hb := bigEndian_lt value
  have hs : entry.size = 2 ∨ entry.size = 4 := by
    split_ifs at hsize <;> omega
  have hc : convertBytesToInteger value entry.size = some (toInt32 (bigEndian value)) := by
    rw [convertBytesToInteger_eq _ _ (by omega), List.take_of_length_le (by omega)]
  have h32 : bigEndian value % 2 ^ 32 = bigEndian value := by
    apply Nat.mod_eq_of_lt
    rcases hs with h | h <;> rw [hlen, h] at hb <;> omega
  unfold catalogValue itemValue
  rw [List.drop_zero, hc]
  by_cases hr : 0x0D ≤ entry.itemCode.val ∧ entry.itemCode.val ≤ 0x14
  · rw [if_neg (by omega), if_neg (by omega), if_neg (by omega), if_pos hr, Option.map_some',
      Option.getD_some, toUInt32_toInt32, h32, Int.cast_natCast]
  · have hs2 : entry.size = 2 := by
      rw [hsize, if_neg (by omega)]
    have h16 : bigEndian value % 65536 = bigEndian value := by
      apply Nat.mod_eq_of_lt
      rw [hlen, hs2] at hb
      omega
    by_cases hw : entry.itemCode.val = 0x0B ∨ entry.itemCode.val = 0x0C
    · rw [if_neg (by omega), if_neg (by omega), if_pos hw, Option.map_some',
        Option.getD_some, toUInt16_toInt32, h16, Int.cast_natCast]
    · rw [if_neg (by omega), if_neg (by omega), if_neg hw, if_neg hr, if_pos (by omega),
        Option.map_some', Option.getD_some, toUInt16_toInt32, h16, Int.cast_natCast]

theorem complete_item (entry : SensorItem) (value : List Byte) (hmem : entry ∈ sensorItems)
    (hlt : entry.itemCode.val < 0x70) (hlen : value.length = entry.size) :
    ∀ r ∈ [Record.item entry value], r.Complete := by
  intro r hr
  rw [List.mem_singleton] at hr
  subst hr
  refine ⟨hmem, ?_, ?_, hlen⟩
  · intro e
    rw [e] at hlt
    exact absurd hlt (by decide)
  · intro e
    rw [e] at hlt
    exact absurd hlt (by decide)

/-- A packet of one table record. -/
theorem readAndDecode_item (prior : List EcowittSensorReading) (b3 b4 : Byte)
    (entry : SensorItem) (value : List Byte) (hmem : entry ∈ sensorItems)
    (hlt : entry.itemCode.val < 0x70) (hlen : value.length = entry.size) :
    readAndDecode prior (packetPrefix b3 b4 ++ entry.itemCode :: value)
        ((packetPrefix b3 b4 ++ entry.itemCode :: value).length : Nat)
      = .returned true
          [⟨entry.itemCode, entry.description, entry.units, catalogValue entry value⟩] := by
  have h := readAndDecode_payload prior b3 b4 [.item entry value]
    (complete_item entry value hmem hlt hlen)
  simpa [payload, readingsOf, Record.encode, Record.readings] using h

/-! ## The clusters anywhere in a buffer -/

theorem loopBody_co2 (pre value rest : List Byte) (h : value.length = 16) (n : Int)
    (rs : List EcowittSensorReading) :
    loopBody (pre ++ (0x70 :: value ++ rest)) n pre.length rs
      = .next (pre.length + 17) (rs ++ co2Readings value) := by
  have hs := loopBody_shift pre (0x70 :: value ++ rest) (n - pre.length) 0 rs
  have hb := loopBody_record (.co2 value) h rest (17 : Int) (by
    simp only [Record.encode, List.length_cons, h]
    decide) rs
  have hb2 : loopBody (0x70 :: value ++ rest) (n - pre.length) 0 rs
      = .next 17 (rs ++ co2Readings value) := by
    simp only [Record.encode, Record.readings, List.length_cons, h] at hb
    simp only [loopBody, List.cons_append, List.getElem?_cons_zero, if_true] at hb ⊢
    exact hb
  rw [hb2] at hs
  simpa [Step.shift] using hs

theorem loopBody_aqi (pre value rest : List Byte) (h : value.length = 12) (n : Int)
    (rs : List EcowittSensorReading) :
    loopBody (pre ++ (0x71 :: value ++ rest)) n pre.length rs
      = .next (pre.length + 13) (rs ++ aqiReadings value) := by
  have hs := loopBody_shift pre (0x71 :: value ++ rest) (n - pre.length) 0 rs
  have hb := loopBody_record (.aqi value) h rest (13 : Int) (by
    simp only [Record.encode, List.length_cons, h]
    decide) rs
  have hne : ¬ ((0x71 : Byte) = 0x70) := by decide
  have hb2 : loopBody (0x71 :: value ++ rest) (n - pre.length) 0 rs
      = .next 13 (rs ++ aqiReadings value) := by
    simp only [Record.encode, Record.readings, List.length_cons, h] at hb
    simp only [loopBody, List.cons_append, List.getElem?_cons_zero, if_true, if_neg hne] at hb ⊢
    exact hb
  rw [hb2] at hs
  simpa [Step.shift] using hs

/-! ## Order preservation, rejection, unknown tags -/

/-- C1 (order preservation).  For every packet made of a good prefix (`0xFF 0xFF 0x27` and any
two bytes) followed by complete records, `readAndDecode` returns `true` and leaves in the sink the
readings of the records, record after record: one reading per table record with the record's
tag and the table's description and unit, the nine of a CO2 record, the six of an AQI record. -/
theorem readAndDecode_order_preservation (prior : List EcowittSensorReading) (b3 b4 : Byte)
    (recs : List Record) (h : ∀ r ∈ recs, r.Complete) :
    readAndDecode prior (packetPrefix b3 b4 ++ payload recs)
        ((packetPrefix b3 b4 ++ payload recs).length : Nat)
      = .returned true (recs.flatMap Record.readings) :=
  readAndDecode_payload prior b3 b4 recs h

/-- Witness of C1 on the sample payload of four records. -/
theorem readAndDecode_order_preservation_witness :
    (∀ r ∈ sampleRecords, r.Complete) ∧
      readAndDecode [staleReading] (packetPrefix 0x00 0x28 ++ payload sampleRecords)
          ((packetPrefix 0x00 0x28 ++ payload sampleRecords).length : Nat)
        = .returned true (sampleRecords.flatMap Record.readings) :=
  ⟨by decide, readAndDecode_order_preservation [staleReading] 0x00 0x28 sampleRecords (by decide)⟩

/-- C2 (validation rejection).  If fewer than 5 bytes are supplied, or byte 0 or byte 1 is not
`0xFF`, or byte 2 is not `0x27`, then `readAndDecode` returns `false` and the sink is empty,
whatever it held before. -/
theorem readAndDecode_rejects (prior : List EcowittSensorReading) (buf : List Byte)
    (bytesRead : Int) (hlen : bytesRead ≤ (buf.length : Nat))
    (h : bytesRead < 5 ∨ buf[0]? ≠ some 0xFF ∨ buf[1]? ≠ some 0xFF ∨ buf[2]? ≠ some 0x27) :
    readAndDecode prior buf bytesRead = .returned false [] := by
  unfold readAndDecode clear
  by_cases h5 : bytesRead < 5
  · rw [if_pos h5]
  · rw [if_neg h5]
    have hl : 5 ≤ buf.length := by omega
    obtain ⟨a0, t0, rfl, h0⟩ := exists_cons_of_length buf (buf.length - 1) (by omega)
    obtain ⟨a1, t1, rfl, h1⟩ := exists_cons_of_length t0 (t0.length - 1) (by
      simp only [List.length_cons] at hl; omega)
    obtain ⟨a2, t2, rfl, h2⟩ := exists_cons_of_length t1 (t1.length - 1) (by
      simp only [List.length_cons] at hl; omega)
    simp only [List.getElem?_cons_zero, List.getElem?_cons_succ, ne_eq, Option.some.injEq] at h ⊢
    rcases h with h | h | h | h
    · exact absurd h h5
    · rw [if_pos h]
    · split_ifs <;> rfl
    · split_ifs <;> rfl

/-- Witness of C2: a short buffer, a bad header byte and a bad command byte, each on a sink that
held a reading. -/
theorem readAndDecode_rejects_witness :
    readAndDecode [staleReading] [0xFF, 0xFF, 0x27, 0x00] 4 = .returned false [] ∧
      readAndDecode [staleReading] [0xFF, 0xFE, 0x27, 0x00, 0x07, 0x06, 0x37] 7
        = .returned false [] ∧
      readAndDecode [staleReading] [0xFF, 0xFF, 0x28, 0x00, 0x07, 0x06, 0x37] 7
        = .returned false [] :=
  ⟨readAndDecode_rejects _ _ _ (by decide) (by decide),
    readAndDecode_rejects _ _ _ (by decide) (by decide),
    readAndDecode_rejects _ _ _ (by decide) (by decide)⟩

/-- C3 (unknown-tag termination).  For every packet made of a good prefix, complete records, and
then a tag that no entry of the table carries (so neither `0x70` nor `0x71`, which the table
lists), followed by any bytes, `readAndDecode` returns `false` and the sink holds exactly the
readings of the records in front of the unknown tag, in order. -/
theorem readAndDecode_unknown_tag (prior : List EcowittSensorReading) (b3 b4 : Byte)
    (recs : List Record) (h : ∀ r ∈ recs, r.Complete) (tag : Byte) (rest : List Byte)
    (hcat : ∀ item ∈ sensorItems, item.itemCode ≠ tag) :
    readAndDecode prior (packetPrefix b3 b4 ++ (payload recs ++ tag :: rest))
        ((packetPrefix b3 b4 ++ (payload recs ++ tag :: rest)).length : Nat)
      = .returned false (recs.flatMap Record.readings) := by
  have h70 : tag ≠ 0x70 := fun e => hcat (SensorItem.mk 0x70 "CO2 Sensor" "N/A" 16) (by decide) e.symm
  have h71 : tag ≠ 0x71 := fun e => hcat (SensorItem.mk 0x71 "PM2.5 AQI" "N/A" 1) (by decide) e.symm
  have hfind : findItem tag = none := by
    unfold findItem
    rw [List.find?_eq_none]
    intro x hx
    simpa using hcat x hx
  rw [readAndDecode_records prior b3 b4 recs h (tag :: rest)]
  have hfuel : ∃ f, (payload recs ++ tag :: rest).length - recs.length = f + 1 := by
    have := length_le_payload recs
    refine ⟨(payload recs ++ tag :: rest).length - recs.length - 1, ?_⟩
    simp only [List.length_append, List.length_cons]
    omega
  obtain ⟨f, hf⟩ := hfuel
  have hlt : ((0 : Nat) : Int) < (((tag :: rest).length : Nat) : Int) := by
    simp only [List.length_cons]
    push_cast
    omega
  rw [hf, decodeLoop, if_pos hlt]
  simp only [loopBody, List.getElem?_cons_zero, if_neg h70, if_neg h71, hfind]
  rfl

/-- Witness of C3: indoor humidity, then the tag `0x4B`, which the table does not list. -/
theorem readAndDecode_unknown_tag_witness :
    (∀ item ∈ sensorItems, item.itemCode ≠ 0x4B) ∧
      readAndDecode []
          (packetPrefix 0x00 0x0B ++
            (payload [.item (SensorItem.mk 0x06 "Indoor Humidity" "%" 1) [0x37]]
              ++ 0x4B :: [0x06, 0x38, 0x07]))
          ((packetPrefix 0x00 0x0B ++
            (payload [.item (SensorItem.mk 0x06 "Indoor Humidity" "%" 1) [0x37]]
              ++ 0x4B :: [0x06, 0x38, 0x07])).length : Nat)
        = .returned false [⟨0x06, "Indoor Humidity", "%", 55⟩] := by
  have hcat : ∀ item ∈ sensorItems, item.itemCode ≠ 0x4B := by decide
  have h := readAndDecode_unknown_tag [] 0x00 0x0B
    [.item (SensorItem.mk 0x06 "Indoor Humidity" "%" 1) [0x37]] (by decide) 0x4B
    [0x06, 0x38, 0x07] hcat
  refine ⟨hcat, ?_⟩
  rw [h]
  decide!

/-! ## Scaling -/

/-- C4 as stated fails on the outdoor-temperature record `0x02 0x00 0x01` (`s = 1`): the value
stored is the `float` nearest to `1 / 10`, which is `13421773 / 134217728`, not `1 / 10`. -/
theorem temperature_scaling_counterexample :
    signed16 ((0x00 : Byte).val * 256 + (0x01 : Byte).val) = 1 ∧
    readAndDecode [] [0xFF, 0xFF, 0x27, 0x00, 0x08, 0x02, 0x00, 0x01] 8
      = .returned true [⟨0x02, "Outdoor Temperature", "°C", 13421773 / 134217728⟩] ∧
    readAndDecode [] [0xFF, 0xFF, 0x27, 0x00, 0x08, 0x02, 0x00, 0x01] 8
      ≠ .returned true [⟨0x02, "Outdoor Temperature", "°C", 1 / 10⟩] := by
  decide!

/-- C4, amended.  For every tag `t` in `0x01..0x05` and value bytes `hi`, `lo`, the packet whose
only record is `t hi lo` decodes to one reading with tag `t`, the table's description of `t`,
unit degrees Celsius and, as value, the `float` the source stores for `s / 10.0`: the `double`
quotient narrowed to `float`, within `|s / 10| / 2 ^ 23` of `s / 10`, where `s` is the signed
16-bit two's-complement reading of `hi * 256 + lo`. -/
theorem temperature_scaling (prior : List EcowittSensorReading) (b3 b4 t hi lo : Byte)
    (h1 : 0x01 ≤ t.val) (h5 : t.val ≤ 0x05) :
    ∃ entry, findItem t = some entry ∧ entry.units = "°C" ∧
      readAndDecode prior [0xFF, 0xFF, 0x27, b3, b4, t, hi, lo] 8
        = .returned true
            [⟨t, entry.description, "°C",
              toFloat (toDouble ((signed16 (hi.val * 256 + lo.val) : ℚ) / 10))⟩] ∧
      |toFloat (toDouble ((signed16 (hi.val * 256 + lo.val) : ℚ) / 10))
          - (signed16 (hi.val * 256 + lo.val) : ℚ) / 10|
        ≤ |(signed16 (hi.val * 256 + lo.val) : ℚ) / 10| / 2 ^ 23 := by
  obtain ⟨entry, hmem, rfl⟩ := exists_entry_temperature t h1 h5
  obtain ⟨hsize, hunits⟩ := temperature_entries entry hmem h1 h5
  refine ⟨entry, findItem_of_mem entry hmem, hunits, ?_, toFloat_toDouble_error _⟩
  have h := readAndDecode_item prior b3 b4 entry [hi, lo] hmem (by omega) (by rw [hsize]; rfl)
  rw [catalogValue_temperature entry hi lo h1 h5 hsize, hunits] at h
  exact h

/-- Witness of the amended C4: the outdoor-temperature record `0x02 0xFF 0x97` (`s = -105`)
yields exactly `-10.5` degrees Celsius. -/
theorem temperature_scaling_witness :
    readAndDecode [] [0xFF, 0xFF, 0x27, 0x00, 0x08, 0x02, 0xFF, 0x97] 8
      = .returned true [⟨0x02, "Outdoor Temperature", "°C", -10.5⟩] := by
  obtain ⟨entry, hfind, -, h, -⟩ :=
    temperature_scaling [] 0x00 0x08 0x02 0xFF 0x97 (by decide) (by decide)
  have he : findItem 0x02 = some (SensorItem.mk 0x02 "Outdoor Temperature" "°C" 2) := by
    decide
  rw [he] at hfind
  cases hfind
  rw [h]
  have hs : toFloat (toDouble ((signed16 ((0xFF : Byte).val * 256 + (0x97 : Byte).val) : ℚ) / 10))
      = -10.5 := by decide!
  rw [hs]

/-! ## The CO2 and AQI clusters -/

/-- C5 as stated fails on the value bytes `sampleCO2`, whose PM10 field is 123: the value stored
is the `float` nearest to `12.3`, which is `12897485 / 1048576`, not `123 / 10`. -/
theorem co2_cluster_values_counterexample :
    u16At sampleCO2 3 = 123 ∧
    ((readAndDecode [] (packetPrefix 0x00 0x16 ++ 0x70 :: sampleCO2) 22).sink.map
        (fun r => r.value))[2]? = some (12897485 / 1048576) ∧
    ((readAndDecode [] (packetPrefix 0x00 0x16 ++ 0x70 :: sampleCO2) 22).sink.map
        (fun r => r.value))[2]? ≠ some (123 / 10) := by
  decide!

/-- C5, amended.  For every packet with a good prefix whose offset 5 holds the tag `0x70`
followed by the sixteen bytes of the nine sub-fields, the first nine readings of the sink are
`co2Readings`: all with tag `0x70`, in the order temperature, humidity, PM10, PM10 24h, PM2.5,
PM2.5 24h, CO2, CO2 24h, battery; humidity and battery are the byte, CO2 and CO2 24h the unsigned
16-bit integer, and temperature (signed 16-bit) and the four PM fields (unsigned 16-bit) are the
`float` the source stores for `x / 10.0`, within `|x / 10| / 2 ^ 23` of `x / 10`; when the
cluster is the only record, the sink is exactly these nine. -/
theorem co2_cluster_values (prior : List EcowittSensorReading) (b3 b4 : Byte)
    (value rest : List Byte) (h : value.length = 16) :
    (readAndDecode prior (packetPrefix b3 b4 ++ (0x70 :: value ++ rest))
        ((packetPrefix b3 b4 ++ (0x70 :: value ++ rest)).length : Nat)).sink.take 9
      = co2Readings value ∧
    readAndDecode prior (packetPrefix b3 b4 ++ 0x70 :: value)
        ((packetPrefix b3 b4 ++ 0x70 :: value).length : Nat)
      = .returned true (co2Readings value) ∧
    (co2Readings value).length = 9 ∧
    (co2Readings value).map (fun r => (r.itemCode, r.value))
      = [(0x70, toFloat (toDouble ((signed16 (u16At value 0) : ℚ) / 10))),
         (0x70, (byteAt value 2 : ℚ)),
         (0x70, toFloat (toDouble ((u16At value 3 : ℚ) / 10))),
         (0x70, toFloat (toDouble ((u16At value 5 : ℚ) / 10))),
         (0x70, toFloat (toDouble ((u16At value 7 : ℚ) / 10))),
         (0x70, toFloat (toDouble ((u16At value 9 : ℚ) / 10))),
         (0x70, (u16At value 11 : ℚ)), (0x70, (u16At value 13 : ℚ)),
         (0x70, (byteAt value 15 : ℚ))] ∧
    ∀ x : ℚ, |toFloat (toDouble (x / 10)) - x / 10| ≤ |x / 10| / 2 ^ 23 := by
  have hc : ∀ r ∈ [Record.co2 value], r.Complete := by
    intro r hr
    rw [List.mem_singleton] at hr
    subst hr
    exact h
  refine ⟨?_, ?_, rfl, rfl, fun x => toFloat_toDouble_error _⟩
  · have hr := readAndDecode_records prior b3 b4 [.co2 value] hc rest
    have he : payload [Record.co2 value] ++ rest = 0x70 :: value ++ rest := by
      simp [payload, Record.encode]
    rw [he] at hr
    rw [hr]
    obtain ⟨more, hm⟩ := decodeLoop_extends rest (rest.length : Nat)
      ((0x70 :: value ++ rest).length - [Record.co2 value].length) 0
      (readingsOf [Record.co2 value])
    rw [hm]
    have hnine : readingsOf [Record.co2 value] = co2Readings value := by
      simp [readingsOf, Record.readings]
    rw [hnine]
    exact List.take_left' rfl
  · have hr := readAndDecode_payload prior b3 b4 [.co2 value] hc
    simpa [payload, readingsOf, Record.encode, Record.readings] using hr

/-- Witness of the amended C5 on the value bytes `sampleCO2`: temperature 235, the PM fields
123, 100, 85 and 75; only `12.3` is not a `float`. -/
theorem co2_cluster_values_witness :
    sampleCO2.length = 16 ∧
    readAndDecode [] (packetPrefix 0x00 0x16 ++ 0x70 :: sampleCO2) 22
      = .returned true
          [⟨0x70, "CO2 Temperature", "°C", 23.5⟩, ⟨0x70, "CO2 Humidity", "%", 45⟩,
           ⟨0x70, "CO2 PM10", "ug/m³", 12897485 / 1048576⟩,
           ⟨0x70, "CO2 PM10 24h Avg", "ug/m³", 10⟩,
           ⟨0x70, "CO2 PM2.5", "ug/m³", 8.5⟩, ⟨0x70, "CO2 PM2.5 24h Avg", "ug/m³", 7.5⟩,
           ⟨0x70, "CO2", "ppm", 600⟩, ⟨0x70, "CO2 24h Avg", "ppm", 550⟩,
           ⟨0x70, "CO2 Battery", "N/A", 6⟩] := by
  refine ⟨rfl, ?_⟩
  have h := (co2_cluster_values [] 0x00 0x16 sampleCO2 [] rfl).2.1
  have hv : co2Readings sampleCO2
      = [⟨0x70, "CO2 Temperature", "°C", 23.5⟩, ⟨0x70, "CO2 Humidity", "%", 45⟩,
         ⟨0x70, "CO2 PM10", "ug/m³", 12897485 / 1048576⟩,
         ⟨0x70, "CO2 PM10 24h Avg", "ug/m³", 10⟩,
         ⟨0x70, "CO2 PM2.5", "ug/m³", 8.5⟩, ⟨0x70, "CO2 PM2.5 24h Avg", "ug/m³", 7.5⟩,
         ⟨0x70, "CO2", "ppm", 600⟩, ⟨0x70, "CO2 24h Avg", "ppm", 550⟩,
         ⟨0x70, "CO2 Battery", "N/A", 6⟩] := by
    decide!
  rw [hv] at h
  exact h

/-- C6 as stated fails on `co2ThenHumidity`: behind the tag at offset 5 the CO2 block leaves the
cursor at `6 + 16 = 22`, not at `6 + 17`, and the next tag, `0x06`, is read at offset 22, sixteen
bytes behind the first CO2 value byte; the packet decodes to the nine CO2 readings and the
humidity reading. -/
theorem co2_width_counterexample :
    (∃ rs, decodeCO2 co2ThenHumidity 6 [] = .ok (6 + 16, rs)) ∧
      (¬ ∃ rs, decodeCO2 co2ThenHumidity 6 [] = .ok (6 + 17, rs)) ∧
      co2ThenHumidity[6 + 16]? = some 0x06 ∧
      readAndDecode [] co2ThenHumidity 24
        = .returned true (co2Readings sampleCO2 ++ [⟨0x06, "Indoor Humidity", "%", 55⟩]) := by
  have h : decodeCO2 co2ThenHumidity 6 [] = .ok (22, co2Readings sampleCO2) := by
    have hs := decodeCO2_shift (packetPrefix 0x00 0x18 ++ [0x70]) (sampleCO2 ++ [0x06, 0x37]) 0 []
    rw [decodeCO2_value sampleCO2 [0x06, 0x37] rfl []] at hs
    exact hs
  refine ⟨⟨_, h⟩, ?_, by decide, by decide!⟩
  rintro ⟨rs, hrs⟩
  rw [h] at hrs
  cases hrs

/-- C6, amended.  Behind a CO2 tag at any offset `pre.length`, with sixteen value bytes, the CO2
block advances the cursor by exactly 16 bytes, the sum of its nine sub-field widths, so that the
next tag is read 16 bytes behind the first CO2 value byte, 17 bytes behind the CO2 tag. -/
theorem co2_cluster_width (pre value rest : List Byte) (h : value.length = 16) (n : Int)
    (rs : List EcowittSensorReading) :
    decodeCO2 (pre ++ (0x70 :: value ++ rest)) (pre.length + 1) rs
      = .ok (pre.length + 1 + 16, rs ++ co2Readings value) ∧
    loopBody (pre ++ (0x70 :: value ++ rest)) n pre.length rs
      = .next (pre.length + 1 + 16) (rs ++ co2Readings value) ∧
    (pre ++ (0x70 :: value ++ rest)).drop (pre.length + 1 + 16) = rest := by
  refine ⟨?_, loopBody_co2 pre value rest h n rs, ?_⟩
  · have hs := decodeCO2_shift (pre ++ [0x70]) (value ++ rest) 0 rs
    rw [decodeCO2_value value rest h rs] at hs
    simpa using hs
  · have ha : pre ++ (0x70 :: value ++ rest) = (pre ++ 0x70 :: value) ++ rest := by simp
    rw [ha]
    exact List.drop_left' (by simp [h])

/-- Witness of the amended C6 on `co2ThenHumidity`. -/
theorem co2_cluster_width_witness :
    sampleCO2.length = 16 ∧
    loopBody co2ThenHumidity 24 5 [] = .next 22 (co2Readings sampleCO2) ∧
    co2ThenHumidity.drop 22 = [0x06, 0x37] := by
  have h := co2_cluster_width (packetPrefix 0x00 0x18) sampleCO2 [0x06, 0x37] rfl 24 []
  exact ⟨rfl, h.2.1, h.2.2⟩

/-- C7 (AQI cluster).  Wherever the tag `0x71` is read with twelve value bytes behind it, the
pass appends exactly six readings with tag `0x71`, the `k`-th (from 0) being the signed 16-bit
big-endian value of value bytes `2k` and `2k + 1`, unscaled, in the fixed order, and leaves the
cursor 12 bytes behind the first value byte; a packet whose only record is the cluster decodes
to these six readings. -/
theorem aqi_cluster (prior : List EcowittSensorReading) (b3 b4 : Byte)
    (pre value rest : List Byte) (h : value.length = 12) (n : Int)
    (rs : List EcowittSensorReading) :
    loopBody (pre ++ (0x71 :: value ++ rest)) n pre.length rs
      = .next (pre.length + 1 + 12) (rs ++ aqiReadings value) ∧
    readAndDecode prior (packetPrefix b3 b4 ++ 0x71 :: value)
        ((packetPrefix b3 b4 ++ 0x71 :: value).length : Nat)
      = .returned true (aqiReadings value) ∧
    (aqiReadings value).map (fun r => (r.itemCode, r.description, r.value))
      = (List.range 6).map (fun k =>
          (0x71,
           ["AQI (PM2.5)", "AQI (PM2.5, 24h Avg)", "AQI (PM2.5, Indoor)",
            "AQI (PM2.5, Indoor, 24h Avg)", "AQI (PM2.5, AQIN Sensor)",
            "AQI (PM2.5, AQIN Sensor, 24h Avg)"].getD k "",
           ((signed16 ((value.getD (2 * k) 0).val * 256 + (value.getD (2 * k + 1) 0).val) : Int)
             : ℚ))) := by
  refine ⟨loopBody_aqi pre value rest h n rs, ?_, ?_⟩
  · have hc : ∀ r ∈ [Record.aqi value], r.Complete := by
      intro r hr
      rw [List.mem_singleton] at hr
      subst hr
      exact h
    have hr := readAndDecode_payload prior b3 b4 [.aqi value] hc
    simpa [payload, readingsOf, Record.encode, Record.readings] using hr
  · obtain ⟨b0, b1, b2, b3, b4, b5, b6, b7, b8, b9, b10, b11, rfl⟩ : ∃ b0 b1 b2 b3 b4 b5 b6 b7 b8 b9 b10 b11, value = [b0, b1, b2, b3, b4, b5, b6, b7, b8, b9, b10, b11] := by
      obtain ⟨b0, t0, rfl, h0⟩ := exists_cons_of_length value 11 h
      obtain ⟨b1, t1, rfl, h1⟩ := exists_cons_of_length t0 10 h0
      obtain ⟨b2, t2, rfl, h2⟩ := exists_cons_of_length t1 9 h1
      obtain ⟨b3, t3, rfl, h3⟩ := exists_cons_of_length t2 8 h2
      obtain ⟨b4, t4, rfl, h4⟩ := exists_cons_of_length t3 7 h3
      obtain ⟨b5, t5, rfl, h5⟩ := exists_cons_of_length t4 6 h4
      obtain ⟨b6, t6, rfl, h6⟩ := exists_cons_of_length t5 5 h5
      obtain ⟨b7, t7, rfl, h7⟩ := exists_cons_of_length t6 4 h6
      obtain ⟨b8, t8, rfl, h8⟩ := exists_cons_of_length t7 3 h7
      obtain ⟨b9, t9, rfl, h9⟩ := exists_cons_of_length t8 2 h8
      obtain ⟨b10, t10, rfl, h10⟩ := exists_cons_of_length t9 1 h9
      obtain ⟨b11, t11, rfl, h11⟩ := exists_cons_of_length t10 0 h10
      have hnil : t11 = [] := List.length_eq_zero.mp h11
      subst hnil
      exact ⟨b0, b1, b2, b3, b4, b5, b6, b7, b8, b9, b10, b11, rfl⟩
    simp [aqiReadings, u16At, bigEndian, List.range, List.range.loop]

/-- Witness of C7 on the value bytes `sampleAQI`. -/
theorem aqi_cluster_witness :
    sampleAQI.length = 12 ∧
    readAndDecode [] (packetPrefix 0x00 0x12 ++ 0x71 :: sampleAQI) 18
      = .returned true
          [⟨0x71, "AQI (PM2.5)", "index", 50⟩, ⟨0x71, "AQI (PM2.5, 24h Avg)", "index", 40⟩,
           ⟨0x71, "AQI (PM2.5, Indoor)", "index", -1⟩,
           ⟨0x71, "AQI (PM2.5, Indoor, 24h Avg)", "index", 0⟩,
           ⟨0x71, "AQI (PM2.5, AQIN Sensor)", "index", -32768⟩,
           ⟨0x71, "AQI (PM2.5, AQIN Sensor, 24h Avg)", "index", 32767⟩] := by
  refine ⟨rfl, ?_⟩
  have h := (aqi_cluster [] 0x00 0x12 [] sampleAQI [] rfl 18 []).2.1
  have hv : aqiReadings sampleAQI
      = [⟨0x71, "AQI (PM2.5)", "index", 50⟩, ⟨0x71, "AQI (PM2.5, 24h Avg)", "index", 40⟩,
         ⟨0x71, "AQI (PM2.5, Indoor)", "index", -1⟩,
         ⟨0x71, "AQI (PM2.5, Indoor, 24h Avg)", "index", 0⟩,
         ⟨0x71, "AQI (PM2.5, AQIN Sensor)", "index", -32768⟩,
         ⟨0x71, "AQI (PM2.5, AQIN Sensor, 24h Avg)", "index", 32767⟩] := by
    decide!
  rw [hv] at h
  exact h

/-! ## Unsigned scaling -/

/-- C8 as stated fails on the 4-byte Rain Month record `0x12 0xFF 0xFF 0xFF 0xFF`
(`u = 4294967295`) and on the 2-byte Wind Speed record `0x0B 0x80 0x00` (`u = 32768`): the values
stored are the `float`s `429496736` and `13421773 / 4096`, not `u / 10`. -/
theorem unsigned_tenths_scaling_counterexample :
    bigEndian [0xFF, 0xFF, 0xFF, 0xFF] = 4294967295 ∧
    readAndDecode [] [0xFF, 0xFF, 0x27, 0x00, 0x0A, 0x12, 0xFF, 0xFF, 0xFF, 0xFF] 10
      = .returned true [⟨0x12, "Rain Month", "mm", 429496736⟩] ∧
    readAndDecode [] [0xFF, 0xFF, 0x27, 0x00, 0x0A, 0x12, 0xFF, 0xFF, 0xFF, 0xFF] 10
      ≠ .returned true [⟨0x12, "Rain Month", "mm", 4294967295 / 10⟩] ∧
    readAndDecode [] [0xFF, 0xFF, 0x27, 0x00, 0x08, 0x0B, 0x80, 0x00] 8
      ≠ .returned true [⟨0x0B, "Wind Speed", "m/s", 32768 / 10⟩] := by
  decide!

/-- C8, amended.  For every tag `t` among `0x0B`, `0x0C`, `0x16` and `0x0D..0x14`, and value
bytes of the width the table declares for `t` (4 for `0x12..0x14`, else 2), the packet whose only
record is `t` with these bytes decodes to one reading whose value is the `float` the source
stores for `u / 10.0`, `u` the unsigned big-endian integer of all the value bytes: the `double`
quotient narrowed to `float`, within `(u / 10) / 2 ^ 23` of `u / 10` and not negative. -/
theorem unsigned_tenths_scaling (prior : List EcowittSensorReading) (b3 b4 t : Byte)
    (value : List Byte)
    (ht : t.val = 0x0B ∨ t.val = 0x0C ∨ t.val = 0x16 ∨ (0x0D ≤ t.val ∧ t.val ≤ 0x14))
    (hlen : value.length = (if 0x12 ≤ t.val ∧ t.val ≤ 0x14 then 4 else 2)) :
    ∃ entry, findItem t = some entry ∧ entry.size = value.length ∧
      readAndDecode prior (packetPrefix b3 b4 ++ t :: value)
          ((packetPrefix b3 b4 ++ t :: value).length : Nat)
        = .returned true
            [⟨t, entry.description, entry.units,
              toFloat (toDouble ((bigEndian value : ℚ) / 10))⟩] ∧
      0 ≤ toFloat (toDouble ((bigEndian value : ℚ) / 10)) ∧
      |toFloat (toDouble ((bigEndian value : ℚ) / 10)) - (bigEndian value : ℚ) / 10|
        ≤ (bigEndian value : ℚ) / 10 / 2 ^ 23 := by
  obtain ⟨entry, hmem, rfl⟩ := exists_entry_unsigned t ht
  have hsize := unsigned_entries entry hmem ht
  have hl : value.length = entry.size := by rw [hsize, hlen]
  have hnn : (0 : ℚ) ≤ (bigEndian value : ℚ) / 10 := by positivity
  have herr := toFloat_toDouble_error ((bigEndian value : ℚ) / 10)
  rw [abs_of_nonneg hnn] at herr
  refine ⟨entry, findItem_of_mem entry hmem, hl.symm, ?_,
    roundBits_nonneg 24 _ (roundBits_nonneg 53 _ hnn), herr⟩
  have h := readAndDecode_item prior b3 b4 entry value hmem (by omega) hl
  rw [catalogValue_unsigned entry value ht hl hsize] at h
  exact h

/-- Witness of the amended C8: the 4-byte Rain Month record with all value bits set yields the
`float` `429496736`, and the 2-byte Rain Day record `0x10 0x00 0x7D` (`u = 125`) yields exactly
`12.5`. -/
theorem unsigned_tenths_scaling_witness :
    readAndDecode [] [0xFF, 0xFF, 0x27, 0x00, 0x0A, 0x12, 0xFF, 0xFF, 0xFF, 0xFF] 10
        = .returned true [⟨0x12, "Rain Month", "mm", 429496736⟩] ∧
      readAndDecode [] [0xFF, 0xFF, 0x27, 0x00, 0x08, 0x10, 0x00, 0x7D] 8
        = .returned true [⟨0x10, "Rain Day", "mm", 12.5⟩] := by
  constructor
  · obtain ⟨entry, hfind, -, h, -, -⟩ :=
      unsigned_tenths_scaling [] 0x00 0x0A 0x12 [0xFF, 0xFF, 0xFF, 0xFF] (by decide) (by decide)
    have he : findItem 0x12 = some (SensorItem.mk 0x12 "Rain Month" "mm" 4) := by decide
    rw [he] at hfind
    cases hfind
    have hb : toFloat (toDouble ((bigEndian [0xFF, 0xFF, 0xFF, 0xFF] : ℚ) / 10)) = 429496736 := by
      decide!
    rw [hb] at h
    exact h
  · obtain ⟨entry, hfind, -, h, -, -⟩ :=
      unsigned_tenths_scaling [] 0x00 0x08 0x10 [0x00, 0x7D] (by decide) (by decide)
    have he : findItem 0x10 = some (SensorItem.mk 0x10 "Rain Day" "mm" 2) := by decide
    rw [he] at hfind
    cases hfind
    have hb : toFloat (toDouble ((bigEndian [0x00, 0x7D] : ℚ) / 10)) = 12.5 := by
      decide!
    rw [hb] at h
    exact h

/-! ## Determinism, empty payload -/

/-- C9 (determinism and wholesale overwrite).  The outcome of `readAndDecode`, result and sink,
is the same for any two sinks the call may find, and is the outcome on an empty sink: it depends
on the buffer and the byte count alone, and no earlier reading survives. -/
theorem readAndDecode_deterministic (prior1 prior2 : List EcowittSensorReading)
    (buf : List Byte) (bytesRead : Int) :
    readAndDecode prior1 buf bytesRead = readAndDecode prior2 buf bytesRead ∧
      readAndDecode prior1 buf bytesRead = readAndDecode [] buf bytesRead :=
  ⟨rfl, rfl⟩

/-- C10 (empty payload).  A buffer of exactly 5 bytes that starts `0xFF 0xFF 0x27` decodes to
`true` with an empty sink. -/
theorem readAndDecode_empty_payload (prior : List EcowittSensorReading) (b3 b4 : Byte) :
    readAndDecode prior [0xFF, 0xFF, 0x27, b3, b4] 5 = .returned true [] := by
  simp [readAndDecode, clear, decodeLoop]

/-! ## The command frame -/

/-- C12 (outbound command frame).  For every command byte `cmd`, the frame `sendCommand` builds
is `0xFF 0xFF cmd 0x03` followed by the checksum `(cmd + 3) mod 256`; for `0x27` the checksum is
`0x2A`, and for `0xFD`, `0xFE`, `0xFF` it wraps around to `0x00`, `0x01`, `0x02`. -/
theorem sendCommand_frame (cmd : Byte) :
    sendCommand cmd = [0xFF, 0xFF, cmd, 0x03, toUInt8 (cmd.val + 3)] ∧
    (sendCommand cmd).map Fin.val = [0xFF, 0xFF, cmd.val, 0x03, (cmd.val + 3) % 256] ∧
    sendCommand CMD_GW1000_LIVEDATA = [0xFF, 0xFF, 0x27, 0x03, 0x2A] ∧
    sendCommand 0xFD = [0xFF, 0xFF, 0xFD, 0x03, 0x00] ∧
    sendCommand 0xFE = [0xFF, 0xFF, 0xFE, 0x03, 0x01] ∧
    sendCommand 0xFF = [0xFF, 0xFF, 0xFF, 0x03, 0x02] := by
  refine ⟨rfl, rfl, ?_, ?_, ?_, ?_⟩ <;> decide

/-! ## The table -/

set_option maxRecDepth 100000 in
theorem sensorItems_nodup : (sensorItems.map SensorItem.itemCode).Nodup := by
  decide!

theorem find?_of_nodup (l : List SensorItem) (hnd : (l.map SensorItem.itemCode).Nodup)
    (entry : SensorItem) (hmem : entry ∈ l) :
    l.find? (fun item => item.itemCode == entry.itemCode) = some entry := by
  induction l with
  | nil => cases hmem
  | cons x xs ih =>
    rw [List.map_cons, List.nodup_cons] at hnd
    rw [List.find?_cons]
    rcases List.mem_cons.mp hmem with rfl | hin
    · simp
    · have hne : x.itemCode ≠ entry.itemCode := by
        intro e
        exact hnd.1 (e ▸ List.mem_map_of_mem SensorItem.itemCode hin)
      have hb : (x.itemCode == entry.itemCode) = false := by simpa using hne
      rw [hb]
      exact ih hnd.2 hin

theorem find?_perm (l : List SensorItem) (hperm : l.Perm sensorItems) (code : Byte) :
    l.find? (fun item => item.itemCode == code) = findItem code := by
  have hnd : (l.map SensorItem.itemCode).Nodup :=
    (hperm.map SensorItem.itemCode).nodup_iff.mpr sensorItems_nodup
  cases hf : findItem code with
  | none =>
    unfold findItem at hf
    rw [List.find?_eq_none] at hf ⊢
    intro x hx
    exact hf x (hperm.mem_iff.mp hx)
  | some entry =>
    unfold findItem at hf
    have hmem : entry ∈ sensorItems := List.mem_of_find?_eq_some hf
    have hcode : entry.itemCode = code := by
      have := List.find?_some hf
      simpa using this
    rw [← hcode]
    exact find?_of_nodup l hnd entry (hperm.mem_iff.mpr hmem)

/-- C15 (catalog uniqueness).  No tag occurs twice in `sensorItems`; the first-match search
returns the one entry that carries the tag, and it returns the same on every reordering of the
table. -/
theorem catalog_unique (l : List SensorItem) (hperm : l.Perm sensorItems) (code : Byte) :
    (sensorItems.map SensorItem.itemCode).Nodup ∧
    (∀ entry ∈ sensorItems, entry.itemCode = code → findItem code = some entry) ∧
    (findItem code = none ↔ ∀ entry ∈ sensorItems, entry.itemCode ≠ code) ∧
    l.find? (fun item => item.itemCode == code) = findItem code := by
  refine ⟨sensorItems_nodup, ?_, ?_, find?_perm l hperm code⟩
  · intro entry hmem hcode
    rw [← hcode]
    exact findItem_of_mem entry hmem
  · unfold findItem
    rw [List.find?_eq_none]
    simp

/-- Witness of C15: the search for `0x02` in the table read backwards. -/
theorem catalog_unique_witness :
    sensorItems.reverse.find? (fun item => item.itemCode == 0x02)
      = some (SensorItem.mk 0x02 "Outdoor Temperature" "°C" 2) := by
  have h := (catalog_unique sensorItems.reverse (List.reverse_perm sensorItems) 0x02).2.2.2
  rw [h]
  decide

/-! ## Truncated fields -/

/-- C11 fails on `truncatedTemperature`: the tag `0x02` of width 2 is read with one byte left,
and `readAndDecode` returns `true`, with an empty sink. -/
theorem truncated_field_returns_true :
    findItem 0x02 = some (SensorItem.mk 0x02 "Outdoor Temperature" "°C" 2) ∧
    truncatedTemperature.length = 7 ∧
    readAndDecode [] truncatedTemperature 7 = .returned true [] := by
  decide

/-- C17 as stated fails on `truncatedTemperature`: the pass that reads the tag `0x02` at cursor 5
with one byte left leaves the cursor at 6, not at 5, and the run ends. -/
theorem stalled_cursor_counterexample :
    loopBody truncatedTemperature 7 5 [] = .next 6 [] ∧
    loopBody truncatedTemperature 7 5 [] ≠ .next 5 [] ∧
    readAndDecode [] truncatedTemperature 7 = .returned true [] := by
  decide

/-- C17, amended.  When the tag read in a pass is found in the table but fewer bytes than its
declared width remain behind it, the pass consumes the tag byte only: the cursor after the pass
is the cursor before it plus 1, nothing is appended, and the loop goes on. -/
theorem truncated_field_step (buf : List Byte) (n : Int) (k : Nat)
    (rs : List EcowittSensorReading) (tag : Byte) (item : SensorItem)
    (hread : buf[k]? = some tag) (h70 : tag ≠ 0x70) (h71 : tag ≠ 0x71)
    (hfind : findItem tag = some item) (hshort : n - ((k + 1 : Nat) : Int) < (item.size : Int)) :
    loopBody buf n k rs = .next (k + 1) rs := by
  have hg : ¬ (((k + 1 : Nat) : Int) + (item.size : Int) ≤ n) := by omega
  simp only [loopBody, hread, if_neg h70, if_neg h71, hfind, if_neg hg]

/-- Witness of the amended C17 on `truncatedTemperature`. -/
theorem truncated_field_step_witness :
    loopBody truncatedTemperature 7 5 [staleReading] = .next 6 [staleReading] :=
  truncated_field_step truncatedTemperature 7 5 [staleReading] 0x02
    (SensorItem.mk 0x02 "Outdoor Temperature" "°C" 2) (by decide) (by decide) (by decide)
    (by decide) (by decide)

/-! ## Reads outside the buffer -/

/-- C16 fails on `bareCO2`: the CO2 block reads two bytes at cursor 6 of a buffer of 6 bytes. -/
theorem co2_reads_outside_buffer :
    bareCO2.length = 6 ∧
    convertBytesToInteger (bareCO2.drop 6) 2 = none ∧
    readAndDecode [] bareCO2 6 = .outOfBounds [] := by
  decide

/-! ## What a block and a pass may do to cursor and sink -/

theorem blockSink_bind_all (P : EcowittSensorReading → Prop)
    {x : Except (List EcowittSensorReading) (Nat × List EcowittSensorReading)}
    {f : Nat × List EcowittSensorReading →
      Except (List EcowittSensorReading) (Nat × List EcowittSensorReading)}
    (hx : ∀ r ∈ blockSink x, P r)
    (hf : ∀ st, (∀ r ∈ st.2, P r) → ∀ r ∈ blockSink (f st), P r) :
    ∀ r ∈ blockSink (x >>= f), P r := by
  cases x with
  | error e => exact hx
  | ok st => exact hf st hx

theorem field16_all (P : EcowittSensorReading → Prop) (buf : List Byte)
    (mk : Int → EcowittSensorReading) (hmk : ∀ v, P (mk v))
    (st : Nat × List EcowittSensorReading) (hst : ∀ r ∈ st.2, P r) :
    ∀ r ∈ blockSink (field16 buf mk st), P r := by
  unfold field16
  cases convertBytesToInteger (buf.drop st.1) 2 with
  | none => exact hst
  | some v =>
    intro r hr
    rcases List.mem_append.mp hr with h | h
    · exact hst r h
    · rw [List.mem_singleton] at h
      rw [h]
      exact hmk v

theorem field8_all (P : EcowittSensorReading → Prop) (buf : List Byte)
    (mk : Byte → EcowittSensorReading) (hmk : ∀ v, P (mk v))
    (st : Nat × List EcowittSensorReading) (hst : ∀ r ∈ st.2, P r) :
    ∀ r ∈ blockSink (field8 buf mk st), P r := by
  unfold field8
  cases buf[st.1]? with
  | none => exact hst
  | some v =>
    intro r hr
    rcases List.mem_append.mp hr with h | h
    · exact hst r h
    · rw [List.mem_singleton] at h
      rw [h]
      exact hmk v

theorem decodeCO2_notCompositeEntry (buf : List Byte) (index : Nat)
    (rs : List EcowittSensorReading) (hrs : ∀ r ∈ rs, NotCompositeEntry r) :
    ∀ r ∈ blockSink (decodeCO2 buf index rs), NotCompositeEntry r := by
  rw [decodeCO2_eq]
  unfold co2Fields
  refine blockSink_bind_all _ (blockSink_bind_all _ (blockSink_bind_all _ (blockSink_bind_all _
    (blockSink_bind_all _ (blockSink_bind_all _ (blockSink_bind_all _ (blockSink_bind_all _
    ?_ ?_) ?_) ?_) ?_) ?_) ?_) ?_) ?_
  · exact field16_all _ buf _ (fun v => by constructor <;> (dsimp only; decide)) (index, rs) hrs
  all_goals first
    | exact fun st hst => field16_all _ buf _ (fun v => by constructor <;> (dsimp only; decide)) st hst
    | exact fun st hst => field8_all _ buf _ (fun v => by constructor <;> (dsimp only; decide)) st hst

theorem decodeAQI_notCompositeEntry (buf : List Byte) (index : Nat)
    (rs : List EcowittSensorReading) (hrs : ∀ r ∈ rs, NotCompositeEntry r) :
    ∀ r ∈ blockSink (decodeAQI buf index rs), NotCompositeEntry r := by
  rw [decodeAQI_eq]
  unfold aqiFields
  refine blockSink_bind_all _ (blockSink_bind_all _ (blockSink_bind_all _ (blockSink_bind_all _
    (blockSink_bind_all _ ?_ ?_) ?_) ?_) ?_) ?_
  · exact field16_all _ buf _ (fun v => by constructor <;> (dsimp only; decide)) (index, rs) hrs
  all_goals
    exact fun st hst => field16_all _ buf _ (fun v => by constructor <;> (dsimp only; decide)) st hst

set_option maxRecDepth 100000 in
theorem description_of_table_entry : ∀ item ∈ sensorItems,
    item.itemCode ≠ 0x70 → item.itemCode ≠ 0x71 →
      item.description ≠ "CO2 Sensor" ∧ item.description ≠ "PM2.5 AQI" := by
  decide!

theorem findItem_some (itemCode : Byte) (item : SensorItem) (h : findItem itemCode = some item) :
    item ∈ sensorItems ∧ item.itemCode = itemCode := by
  unfold findItem at h
  exact ⟨List.mem_of_find?_eq_some h, by simpa using List.find?_some h⟩

theorem loopBody_notCompositeEntry (buf : List Byte) (n : Int) (k : Nat)
    (rs : List EcowittSensorReading) (hrs : ∀ r ∈ rs, NotCompositeEntry r) :
    ∀ r ∈ (loopBody buf n k rs).sink, NotCompositeEntry r := by
  unfold loopBody
  cases buf[k]? with
  | none => exact hrs
  | some itemCode =>
    simp only
    split_ifs with h70 h71
    · have h := decodeCO2_notCompositeEntry buf (k + 1) rs hrs
      cases hd : decodeCO2 buf (k + 1) rs with
      | error e => rw [hd] at h; exact h
      | ok st => rw [hd] at h; exact h
    · have h := decodeAQI_notCompositeEntry buf (k + 1) rs hrs
      cases hd : decodeAQI buf (k + 1) rs with
      | error e => rw [hd] at h; exact h
      | ok st => rw [hd] at h; exact h
    · cases hf : findItem itemCode with
      | none => exact hrs
      | some item =>
        obtain ⟨hmem, hcode⟩ := findItem_some itemCode item hf
        simp only
        split_ifs
        · cases itemValue buf (k + 1) item with
          | none => exact hrs
          | some value =>
            intro r hr
            rcases List.mem_append.mp hr with h | h
            · exact hrs r h
            · rw [List.mem_singleton] at h
              rw [h]
              exact description_of_table_entry item hmem (hcode ▸ h70) (hcode ▸ h71)
        · exact hrs

theorem decodeLoop_notCompositeEntry (buf : List Byte) (n : Int) (fuel k : Nat)
    (rs : List EcowittSensorReading) (hrs : ∀ r ∈ rs, NotCompositeEntry r) :
    ∀ r ∈ (decodeLoop buf n fuel k rs).sink, NotCompositeEntry r := by
  induction fuel generalizing k rs with
  | zero =>
    unfold decodeLoop
    split_ifs <;> exact hrs
  | succ fuel ih =>
    unfold decodeLoop
    split_ifs
    · have h := loopBody_notCompositeEntry buf n k rs hrs
      cases hb : loopBody buf n k rs with
      | next index readings =>
        rw [hb] at h
        exact ih index readings h
      | stop o =>
        rw [hb] at h
        exact h
    · exact hrs

theorem readAndDecode_sink_all (P : EcowittSensorReading → Prop)
    (hloop : ∀ buf n fuel, ∀ r ∈ (decodeLoop buf n fuel 5 []).sink, P r)
    (prior : List EcowittSensorReading) (buf : List Byte) (n : Int) :
    ∀ r ∈ (readAndDecode prior buf n).sink, P r := by
  unfold readAndDecode clear
  simp only
  split_ifs
  · intro r hr
    cases hr
  · cases buf[0]? with
    | none => intro r hr; cases hr
    | some b0 =>
      simp only
      split_ifs
      · intro r hr; cases hr
      · cases buf[1]? with
        | none => intro r hr; cases hr
        | some b1 =>
          simp only
          split_ifs
          · intro r hr; cases hr
          · cases buf[2]? with
            | none => intro r hr; cases hr
            | some b2 =>
              simp only
              split_ifs
              · intro r hr; cases hr
              · exact hloop buf n _

/-! ## Composite tags -/

/-- C14 as stated fails on the table: `sensorItems` has an entry for `0x70` and one for `0x71`,
and the search finds them. -/
theorem composite_tags_in_table :
    SensorItem.mk 0x70 "CO2 Sensor" "N/A" 16 ∈ sensorItems ∧
    SensorItem.mk 0x71 "PM2.5 AQI" "N/A" 1 ∈ sensorItems ∧
    findItem 0x70 = some (SensorItem.mk 0x70 "CO2 Sensor" "N/A" 16) ∧
    findItem 0x71 = some (SensorItem.mk 0x71 "PM2.5 AQI" "N/A" 1) := by
  decide

/-- C14, amended.  The table lists `0x70` and `0x71`, but the search never sees them: a tag
`0x70` or `0x71` read at a tag position is handed to its block, whatever the byte count, and no
reading of any sink carries the description of the table's entry for `0x70` or for `0x71`. -/
theorem composite_tags_bypass (prior : List EcowittSensorReading) (buf : List Byte) (n : Int)
    (k : Nat) (rs : List EcowittSensorReading) (tag : Byte) (htag : tag = 0x70 ∨ tag = 0x71)
    (hread : buf[k]? = some tag) :
    loopBody buf n k rs
      = (match (if tag = 0x70 then decodeCO2 buf (k + 1) rs else decodeAQI buf (k + 1) rs) with
        | .ok (index, readings) => .next index readings
        | .error readings => .stop (.outOfBounds readings)) ∧
    ∀ r ∈ (readAndDecode prior buf n).sink,
      r.description ≠ "CO2 Sensor" ∧ r.description ≠ "PM2.5 AQI" := by
  constructor
  · rcases htag with rfl | rfl
    · simp only [loopBody, hread, if_true]
    · have hne : ¬ ((0x71 : Byte) = 0x70) := by decide
      simp only [loopBody, hread, if_true, if_neg hne]
  · exact readAndDecode_sink_all NotCompositeEntry
      (fun buf n fuel => decodeLoop_notCompositeEntry buf n fuel 5 [] (fun r hr => by cases hr))
      prior buf n

/-- Witness of the amended C14 on `co2ThenHumidity`, whose tag at offset 5 is `0x70`. -/
theorem composite_tags_bypass_witness :
    loopBody co2ThenHumidity 24 5 [] = .next 22 (co2Readings sampleCO2) ∧
    ∀ r ∈ (readAndDecode [staleReading] co2ThenHumidity 24).sink,
      r.description ≠ "CO2 Sensor" ∧ r.description ≠ "PM2.5 AQI" := by
  have h := composite_tags_bypass [staleReading] co2ThenHumidity 24 5 [] 0x70 (Or.inl rfl)
    (by decide)
  refine ⟨?_, h.2⟩
  rw [h.1]
  have hd : decodeCO2 co2ThenHumidity (5 + 1) [] = .ok (22, co2Readings sampleCO2) := by
    have hs := decodeCO2_shift (packetPrefix 0x00 0x18 ++ [0x70]) (sampleCO2 ++ [0x06, 0x37]) 0 []
    rw [decodeCO2_value sampleCO2 [0x06, 0x37] rfl []] at hs
    exact hs
  rw [if_pos rfl, hd]

/-! ## The length field -/

theorem blockCursor_bind {k : Nat}
    {x : Except (List EcowittSensorReading) (Nat × List EcowittSensorReading)}
    {f : Nat × List EcowittSensorReading →
      Except (List EcowittSensorReading) (Nat × List EcowittSensorReading)}
    (hx : k ≤ blockCursor k x) (hf : ∀ st, st.1 ≤ blockCursor st.1 (f st)) :
    k ≤ blockCursor k (x >>= f) := by
  cases x with
  | error e => exact hx
  | ok st =>
    have h := hf st
    show k ≤ blockCursor k (f st)
    cases hfst : f st with
    | error e => exact Nat.le_refl k
    | ok st2 =>
      rw [hfst] at h
      exact Nat.le_trans hx h

theorem field16_cursor (buf : List Byte) (mk : Int → EcowittSensorReading)
    (st : Nat × List EcowittSensorReading) : st.1 ≤ blockCursor st.1 (field16 buf mk st) := by
  unfold field16
  cases convertBytesToInteger (buf.drop st.1) 2 with
  | none => exact Nat.le_refl _
  | some v => exact Nat.le_add_right _ _

theorem field8_cursor (buf : List Byte) (mk : Byte → EcowittSensorReading)
    (st : Nat × List EcowittSensorReading) : st.1 ≤ blockCursor st.1 (field8 buf mk st) := by
  unfold field8
  cases buf[st.1]? with
  | none => exact Nat.le_refl _
  | some v => exact Nat.le_add_right _ _

theorem decodeCO2_cursor (buf : List Byte) (index : Nat) (rs : List EcowittSensorReading) :
    index ≤ blockCursor index (decodeCO2 buf index rs) := by
  rw [decodeCO2_eq]
  unfold co2Fields
  refine blockCursor_bind (blockCursor_bind (blockCursor_bind (blockCursor_bind
    (blockCursor_bind (blockCursor_bind (blockCursor_bind (blockCursor_bind ?_ ?_) ?_) ?_) ?_)
    ?_) ?_) ?_) ?_
  · exact field16_cursor buf _ (index, rs)
  all_goals first
    | exact fun st => field16_cursor buf _ st
    | exact fun st => field8_cursor buf _ st

theorem decodeAQI_cursor (buf : List Byte) (index : Nat) (rs : List EcowittSensorReading) :
    index ≤ blockCursor index (decodeAQI buf index rs) := by
  rw [decodeAQI_eq]
  unfold aqiFields
  refine blockCursor_bind (blockCursor_bind (blockCursor_bind (blockCursor_bind
    (blockCursor_bind ?_ ?_) ?_) ?_) ?_) ?_
  · exact field16_cursor buf _ (index, rs)
  all_goals exact fun st => field16_cursor buf _ st

theorem blockSink_bind_length {L a b : Nat}
    {x : Except (List EcowittSensorReading) (Nat × List EcowittSensorReading)}
    {f : Nat × List EcowittSensorReading →
      Except (List EcowittSensorReading) (Nat × List EcowittSensorReading)}
    (hx : (blockSink x).length ≤ L + a)
    (hf : ∀ st, (blockSink (f st)).length ≤ st.2.length + b) :
    (blockSink (x >>= f)).length ≤ L + (a + b) := by
  cases x with
  | error e =>
    have h : (blockSink (Except.error e :
        Except (List EcowittSensorReading) (Nat × List EcowittSensorReading))).length
        ≤ L + a := hx
    show (blockSink (Except.error e :
        Except (List EcowittSensorReading) (Nat × List EcowittSensorReading))).length
        ≤ L + (a + b)
    omega
  | ok st =>
    have h1 : st.2.length ≤ L + a := hx
    have h2 := hf st
    show (blockSink (f st)).length ≤ L + (a + b)
    omega

theorem field16_length (buf : List Byte) (mk : Int → EcowittSensorReading)
    (st : Nat × List EcowittSensorReading) :
    (blockSink (field16 buf mk st)).length ≤ st.2.length + 1 := by
  unfold field16
  cases convertBytesToInteger (buf.drop st.1) 2 with
  | none => exact Nat.le_add_right _ _
  | some v =>
    show (st.2 ++ [mk v]).length ≤ st.2.length + 1
    rw [List.length_append, List.length_singleton]

theorem field8_length (buf : List Byte) (mk : Byte → EcowittSensorReading)
    (st : Nat × List EcowittSensorReading) :
    (blockSink (field8 buf mk st)).length ≤ st.2.length + 1 := by
  unfold field8
  cases buf[st.1]? with
  | none => exact Nat.le_add_right _ _
  | some v =>
    show (st.2 ++ [mk v]).length ≤ st.2.length + 1
    rw [List.length_append, List.length_singleton]

theorem decodeCO2_length (buf : List Byte) (index : Nat) (rs : List EcowittSensorReading) :
    (blockSink (decodeCO2 buf index rs)).length ≤ rs.length + 9 := by
  rw [decodeCO2_eq]
  unfold co2Fields
  refine blockSink_bind_length (a := 8) (b := 1) (blockSink_bind_length (a := 7) (b := 1)
    (blockSink_bind_length (a := 6) (b := 1) (blockSink_bind_length (a := 5) (b := 1)
    (blockSink_bind_length (a := 4) (b := 1) (blockSink_bind_length (a := 3) (b := 1)
    (blockSink_bind_length (a := 2) (b := 1) (blockSink_bind_length (a := 1) (b := 1)
    ?_ ?_) ?_) ?_) ?_) ?_) ?_) ?_) ?_
  · exact field16_length buf _ (index, rs)
  all_goals first
    | exact fun st => field16_length buf _ st
    | exact fun st => field8_length buf _ st

theorem decodeAQI_length (buf : List Byte) (index : Nat) (rs : List EcowittSensorReading) :
    (blockSink (decodeAQI buf index rs)).length ≤ rs.length + 6 := by
  rw [decodeAQI_eq]
  unfold aqiFields
  refine blockSink_bind_length (a := 5) (b := 1) (blockSink_bind_length (a := 4) (b := 1)
    (blockSink_bind_length (a := 3) (b := 1) (blockSink_bind_length (a := 2) (b := 1)
    (blockSink_bind_length (a := 1) (b := 1) ?_ ?_) ?_) ?_) ?_) ?_
  · exact field16_length buf _ (index, rs)
  all_goals exact fun st => field16_length buf _ st

theorem loopBody_advances (buf : List Byte) (n : Int) (k : Nat)
    (rs : List EcowittSensorReading) : (loopBody buf n k rs).Advances k := by
  unfold loopBody
  cases buf[k]? with
  | none => trivial
  | some itemCode =>
    simp only
    split_ifs with h70 h71
    · have h := decodeCO2_cursor buf (k + 1) rs
      cases hd : decodeCO2 buf (k + 1) rs with
      | error e => trivial
      | ok st => rw [hd] at h; exact h
    · have h := decodeAQI_cursor buf (k + 1) rs
      cases hd : decodeAQI buf (k + 1) rs with
      | error e => trivial
      | ok st => rw [hd] at h; exact h
    · cases findItem itemCode with
      | none => trivial
      | some item =>
        simp only
        split_ifs
        · cases itemValue buf (k + 1) item with
          | none => trivial
          | some value => exact Nat.le_add_right _ _
        · exact Nat.le_refl _

theorem loopBody_length (buf : List Byte) (n : Int) (k : Nat)
    (rs : List EcowittSensorReading) : (loopBody buf n k rs).sink.length ≤ rs.length + 9 := by
  unfold loopBody
  cases buf[k]? with
  | none => exact Nat.le_add_right _ _
  | some itemCode =>
    simp only
    split_ifs with h70 h71
    · have h := decodeCO2_length buf (k + 1) rs
      cases hd : decodeCO2 buf (k + 1) rs with
      | error e => rw [hd] at h; exact h
      | ok st => rw [hd] at h; exact h
    · have h := decodeAQI_length buf (k + 1) rs
      cases hd : decodeAQI buf (k + 1) rs with
      | error e =>
        rw [hd] at h
        exact Nat.le_trans h (by omega)
      | ok st =>
        rw [hd] at h
        exact Nat.le_trans h (by omega)
    · cases findItem itemCode with
      | none => exact Nat.le_add_right _ _
      | some item =>
        simp only
        split_ifs
        · cases itemValue buf (k + 1) item with
          | none => exact Nat.le_add_right _ _
          | some value =>
            show (rs ++ [_]).length ≤ rs.length + 9
            rw [List.length_append, List.length_singleton]
            omega
        · exact Nat.le_add_right _ _

theorem decodeLoop_fuel (buf : List Byte) (n : Int) (fuel k : Nat)
    (rs : List EcowittSensorReading) (h : (n - (k : Int)).toNat ≤ fuel) :
    ∀ readings, decodeLoop buf n fuel k rs ≠ .outOfFuel readings := by
  induction fuel generalizing k rs with
  | zero =>
    intro readings
    have hk : ¬ ((k : Int) < n) := by omega
    simp only [decodeLoop, if_neg hk]
    exact fun e => Outcome.noConfusion e
  | succ fuel ih =>
    intro readings
    unfold decodeLoop
    split_ifs with hk
    · have hadv := loopBody_advances buf n k rs
      cases hb : loopBody buf n k rs with
      | next index rs2 =>
        rw [hb] at hadv
        have hle : k + 1 ≤ index := hadv
        exact ih index rs2 (by omega) readings
      | stop o =>
        have hext : ∀ r, (loopBody buf n k rs) ≠ .stop (.outOfFuel r) := by
          intro r
          unfold loopBody
          cases buf[k]? with
          | none => exact fun e => by cases e
          | some itemCode =>
            simp only
            split_ifs
            · cases decodeCO2 buf (k + 1) rs with
              | error e => exact fun e => by cases e
              | ok st => exact fun e => by cases e
            · cases decodeAQI buf (k + 1) rs with
              | error e => exact fun e => by cases e
              | ok st => exact fun e => by cases e
            · cases findItem itemCode with
              | none => exact fun e => by cases e
              | some item =>
                simp only
                split_ifs
                · cases itemValue buf (k + 1) item with
                  | none => exact fun e => by cases e
                  | some value => exact fun e => by cases e
                · exact fun e => by cases e
        intro e
        simp only at e
        subst e
        exact hext readings hb
    · exact fun e => Outcome.noConfusion e

theorem decodeLoop_length (buf : List Byte) (n : Int) (fuel k : Nat)
    (rs : List EcowittSensorReading) :
    (decodeLoop buf n fuel k rs).sink.length ≤ rs.length + 9 * fuel := by
  induction fuel generalizing k rs with
  | zero =>
    unfold decodeLoop
    split_ifs <;> exact Nat.le_refl _
  | succ fuel ih =>
    unfold decodeLoop
    split_ifs
    · have h := loopBody_length buf n k rs
      cases hb : loopBody buf n k rs with
      | next index rs2 =>
        rw [hb] at h
        have h2 := ih index rs2
        have h1 : rs2.length ≤ rs.length + 9 := h
        show (decodeLoop buf n fuel index rs2).sink.length ≤ rs.length + 9 * (fuel + 1)
        omega
      | stop o =>
        rw [hb] at h
        have h1 : o.sink.length ≤ rs.length + 9 := h
        show o.sink.length ≤ rs.length + 9 * (fuel + 1)
        omega
    · exact Nat.le_add_right _ _

theorem readAndDecode_cases (prior : List EcowittSensorReading) (buf : List Byte) (n : Int) :
    readAndDecode prior buf n = .returned false [] ∨
    readAndDecode prior buf n = .outOfBounds [] ∨
    readAndDecode prior buf n = decodeLoop buf n (n - 5).toNat 5 [] := by
  unfold readAndDecode clear
  simp only
  split_ifs
  · exact Or.inl rfl
  · cases buf[0]? with
    | none => exact Or.inr (Or.inl rfl)
    | some b0 =>
      simp only
      split_ifs
      · exact Or.inl rfl
      · cases buf[1]? with
        | none => exact Or.inr (Or.inl rfl)
        | some b1 =>
          simp only
          split_ifs
          · exact Or.inl rfl
          · cases buf[2]? with
            | none => exact Or.inr (Or.inl rfl)
            | some b2 =>
              simp only
              split_ifs
              · exact Or.inl rfl
              · exact Or.inr (Or.inr rfl)

/-! ## Termination -/

/-- C18 (termination).  For every buffer and byte count the run of `readAndDecode` ends within
the `bytesRead - 5` passes of its fuel; every pass that goes on leaves the cursor at least one
byte further, the tag byte being always consumed; and the sink has at most 9 readings per
pass, `9 * (bytesRead - 5)` in all. -/
theorem readAndDecode_terminates (prior : List EcowittSensorReading) (buf : List Byte)
    (n : Int) :
    (∀ readings, readAndDecode prior buf n ≠ .outOfFuel readings) ∧
    (∀ k rs, (loopBody buf n k rs).Advances k) ∧
    (∀ k rs, (loopBody buf n k rs).sink.length ≤ rs.length + 9) ∧
    (readAndDecode prior buf n).sink.length ≤ 9 * (n - 5).toNat := by
  refine ⟨?_, loopBody_advances buf n, loopBody_length buf n, ?_⟩
  · intro readings
    rcases readAndDecode_cases prior buf n with h | h | h
    · rw [h]; exact fun e => Outcome.noConfusion e
    · rw [h]; exact fun e => Outcome.noConfusion e
    · rw [h]
      exact decodeLoop_fuel buf n (n - 5).toNat 5 [] (by
        have : (n - ((5 : Nat) : Int)) = n - 5 := by norm_num
        rw [this]) readings
  · rcases readAndDecode_cases prior buf n with h | h | h
    · rw [h]; exact Nat.zero_le _
    · rw [h]; exact Nat.zero_le _
    · rw [h]
      have := decodeLoop_length buf n (n - 5).toNat 5 []
      simpa using this

/-! ## The default branch -/

theorem complete_item_of_ne (entry : SensorItem) (value : List Byte)
    (hmem : entry ∈ sensorItems) (h70 : entry.itemCode ≠ 0x70) (h71 : entry.itemCode ≠ 0x71)
    (hlen : value.length = entry.size) :
    ∀ r ∈ [Record.item entry value], r.Complete := by
  intro r hr
  rw [List.mem_singleton] at hr
  subst hr
  exact ⟨hmem, h70, h71, hlen⟩

/-- A packet of one table record, for any tag the blocks do not take. -/
theorem readAndDecode_item_of_ne (prior : List EcowittSensorReading) (b3 b4 : Byte)
    (entry : SensorItem) (value : List Byte) (hmem : entry ∈ sensorItems)
    (h70 : entry.itemCode ≠ 0x70) (h71 : entry.itemCode ≠ 0x71)
    (hlen : value.length = entry.size) :
    readAndDecode prior (packetPrefix b3 b4 ++ entry.itemCode :: value)
        ((packetPrefix b3 b4 ++ entry.itemCode :: value).length : Nat)
      = .returned true
          [⟨entry.itemCode, entry.description, entry.units, catalogValue entry value⟩] := by
  have h := readAndDecode_payload prior b3 b4 [.item entry value]
    (complete_item_of_ne entry value hmem h70 h71 hlen)
  simpa [payload, readingsOf, Record.encode, Record.readings] using h

theorem catalogValue_default (entry : SensorItem) (value : List Byte)
    (hns : ¬ Scaled entry.itemCode) (hlen : value.length = entry.size) :
    catalogValue entry value = toFloat ((toInt32 (bigEndian value) : Int) : ℚ) := by
  have hc : convertBytesToInteger value entry.size = some (toInt32 (bigEndian value)) := by
    rw [convertBytesToInteger_eq _ _ (by omega), List.take_of_length_le (by omega)]
  unfold Scaled at hns
  unfold catalogValue itemValue
  rw [List.drop_zero, hc, if_neg (by omega), if_neg (by omega), if_neg (by omega),
    if_neg (by omega), if_neg (by omega), Option.map_some', Option.getD_some]

set_option maxRecDepth 100000 in
theorem size_of_co2_entry : ∀ entry ∈ sensorItems, entry.itemCode = 0x70 → entry.size = 16 := by
  decide!

/-- C19 as stated fails on `aqiAsTableRecord`: the table lists `0x71` with width 1, outside the
scaled tags, but the record `0x71 0x05` does not decode to one reading of value 5: the tag goes
to the AQI block, which reads twelve bytes. -/
theorem default_branch_counterexample :
    SensorItem.mk 0x71 "PM2.5 AQI" "N/A" 1 ∈ sensorItems ∧ ¬ Scaled 0x71 ∧
    aqiAsTableRecord.length = 7 ∧
    readAndDecode [] aqiAsTableRecord 7 = .outOfBounds [] ∧
    readAndDecode [] aqiAsTableRecord 7 ≠ .returned true [⟨0x71, "PM2.5 AQI", "N/A", 5⟩] := by
  decide!

/-- C19, amended.  For every entry of the table other than that of `0x71`, with a tag outside
`0x01..0x07`, `0x0B..0x14` and `0x16` and a declared width of 1, 2 or 3, the packet whose only
record is complete for that entry decodes to one reading whose value is the unsigned big-endian
integer of its value bytes, unscaled: it lies in `[0, 2 ^ (8 * width))`. -/
theorem default_branch_unsigned (prior : List EcowittSensorReading) (b3 b4 : Byte)
    (entry : SensorItem) (value : List Byte) (hmem : entry ∈ sensorItems)
    (hns : ¬ Scaled entry.itemCode) (h71 : entry.itemCode ≠ 0x71)
    (hw : entry.size = 1 ∨ entry.size = 2 ∨ entry.size = 3)
    (hlen : value.length = entry.size) :
    readAndDecode prior (packetPrefix b3 b4 ++ entry.itemCode :: value)
        ((packetPrefix b3 b4 ++ entry.itemCode :: value).length : Nat)
      = .returned true
          [⟨entry.itemCode, entry.description, entry.units, (bigEndian value : ℚ)⟩] ∧
    bigEndian value < 2 ^ (8 * entry.size) ∧ (0 : ℚ) ≤ (bigEndian value : ℚ) := by
  have h70 : entry.itemCode ≠ 0x70 := by
    intro e
    have := size_of_co2_entry entry hmem e
    omega
  have hb := bigEndian_lt value
  have hpow : (256 : Nat) ^ value.length = 2 ^ (8 * entry.size) := by
    rw [hlen, pow_mul]
    norm_num
  have hlt24 : bigEndian value < 2 ^ 24 := by
    rw [hlen] at hb
    rcases hw with h | h | h <;> rw [h] at hb <;> omega
  have hlt : bigEndian value < 2 ^ 31 := by omega
  refine ⟨?_, hpow ▸ hb, by positivity⟩
  have h := readAndDecode_item_of_ne prior b3 b4 entry value hmem h70 h71 hlen
  rw [catalogValue_default entry value hns hlen, toInt32_of_lt _ hlt, Int.cast_natCast,
    toFloat_natCast _ hlt24] at h
  exact h

/-- Witness of the amended C19: the 2-byte Temperature 1 record `0x1A 0xFF 0x97` yields 65431,
and the 3-byte Temperature 1 record `0x63 0xFF 0xFF 0x97` yields 16777111. -/
theorem default_branch_unsigned_witness :
    readAndDecode [] [0xFF, 0xFF, 0x27, 0x00, 0x08, 0x1A, 0xFF, 0x97] 8
        = .returned true [⟨0x1A, "Temperature 1", "°C", 65431⟩] ∧
    readAndDecode [] [0xFF, 0xFF, 0x27, 0x00, 0x09, 0x63, 0xFF, 0xFF, 0x97] 9
        = .returned true [⟨0x63, "Temperature 1", "°C", 16777111⟩] := by
  constructor
  · have h := (default_branch_unsigned [] 0x00 0x08 (SensorItem.mk 0x1A "Temperature 1" "°C" 2)
      [0xFF, 0x97] (by decide) (by decide) (by decide) (by decide) (by decide)).1
    have hb : bigEndian [0xFF, 0x97] = 65431 := by decide
    rw [hb] at h
    exact h
  · have h := (default_branch_unsigned [] 0x00 0x09 (SensorItem.mk 0x63 "Temperature 1" "°C" 3)
      [0xFF, 0xFF, 0x97] (by decide) (by decide) (by decide) (by decide) (by decide)).1
    have hb : bigEndian [0xFF, 0xFF, 0x97] = 16777111 := by decide
    rw [hb] at h
    exact h

/-! ## Wrap-around at 32 bits -/

theorem foldl_bigEndian (bytes : List Byte) (v : Nat) :
    bytes.foldl (fun v b => v * 256 + b.val) v
      = v * 256 ^ bytes.length + bytes.foldl (fun v b => v * 256 + b.val) 0 := by
  induction bytes generalizing v with
  | nil => simp
  | cons b bs ih =>
    rw [List.foldl_cons, List.foldl_cons, ih (v * 256 + b.val), ih (0 * 256 + b.val),
      List.length_cons, pow_succ]
    ring

theorem bigEndian_append (front back : List Byte) :
    bigEndian (front ++ back) = bigEndian front * 256 ^ back.length + bigEndian back := by
  unfold bigEndian
  rw [List.foldl_append, foldl_bigEndian]

theorem toInt32_bigEndian_append (front : List Byte) (a b c d : Byte) :
    toInt32 (bigEndian (front ++ [a, b, c, d])) = toInt32 (bigEndian [a, b, c, d]) := by
  have h : bigEndian (front ++ [a, b, c, d])
      = bigEndian front * 4294967296 + bigEndian [a, b, c, d] := by
    rw [bigEndian_append]
    simp only [List.length_cons, List.length_nil]
    norm_num
  have hmod : bigEndian (front ++ [a, b, c, d]) % 2 ^ 32 = bigEndian [a, b, c, d] % 2 ^ 32 := by
    rw [h]
    omega
  unfold toInt32
  rw [hmod]

theorem bigEndian_four (a b c d : Byte) :
    bigEndian [a, b, c, d] = ((a.val * 256 + b.val) * 256 + c.val) * 256 + d.val := by
  simp [bigEndian]

theorem toInt32_four_neg (a b c d : Byte) :
    toInt32 (bigEndian [a, b, c, d]) < 0 ↔ 128 ≤ a.val := by
  have ha : a.val < 256 := a.isLt
  have hb : b.val < 256 := b.isLt
  have hc : c.val < 256 := c.isLt
  have hd : d.val < 256 := d.isLt
  rw [bigEndian_four]
  unfold toInt32
  split <;> omega

/-- C20 (wrap-around at 32 bits).  With the shift taken modulo `2 ^ 32`, `convertBytesToInteger`
on four or more bytes returns the signed 32-bit value of the last four alone, negative exactly
when the top bit of the first of these four is set; so the reading of the 6-byte Date-and-time
record `0x18` and of the 16-byte low-battery record `0x4C` is the `float` of that value of the
record's last four value bytes, whatever the bytes in front of them, while the pass leaves the
cursor behind the whole declared width. -/
theorem reconstruction_wraps (prior : List EcowittSensorReading) (b3 b4 : Byte)
    (lead rest front : List Byte) (a b c d : Byte) (entry : SensorItem)
    (hentry : entry = SensorItem.mk 0x18 "Date and time" "N/A" 6 ∨
      entry = SensorItem.mk 0x4C "All sensor lowbatt" "N/A" 16)
    (hfront : front.length + 4 = entry.size) :
    convertBytesToInteger (lead ++ [a, b, c, d] ++ rest) (lead.length + 4)
      = some (toInt32 (bigEndian [a, b, c, d])) ∧
    (toInt32 (bigEndian [a, b, c, d]) < 0 ↔ 128 ≤ a.val) ∧
    readAndDecode prior (packetPrefix b3 b4 ++ entry.itemCode :: (front ++ [a, b, c, d]))
        ((packetPrefix b3 b4 ++ entry.itemCode :: (front ++ [a, b, c, d])).length : Nat)
      = .returned true
          [⟨entry.itemCode, entry.description, entry.units,
            toFloat ((toInt32 (bigEndian [a, b, c, d]) : Int) : ℚ)⟩] ∧
    loopBody (packetPrefix b3 b4 ++ entry.itemCode :: (front ++ [a, b, c, d]))
        ((packetPrefix b3 b4 ++ entry.itemCode :: (front ++ [a, b, c, d])).length : Nat) 5 []
      = .next (5 + 1 + entry.size)
          [⟨entry.itemCode, entry.description, entry.units,
            toFloat ((toInt32 (bigEndian [a, b, c, d]) : Int) : ℚ)⟩] := by
  have hmem : entry ∈ sensorItems := by
    rcases hentry with rfl | rfl <;> decide
  have hns : ¬ Scaled entry.itemCode := by
    rcases hentry with rfl | rfl <;> decide
  have h70 : entry.itemCode ≠ 0x70 := by
    rcases hentry with rfl | rfl <;> decide
  have h71 : entry.itemCode ≠ 0x71 := by
    rcases hentry with rfl | rfl <;> decide
  have hlen : (front ++ [a, b, c, d]).length = entry.size := by
    rw [List.length_append]
    exact hfront
  have hval : catalogValue entry (front ++ [a, b, c, d])
      = toFloat ((toInt32 (bigEndian [a, b, c, d]) : Int) : ℚ) := by
    rw [catalogValue_default entry _ hns hlen, toInt32_bigEndian_append]
  refine ⟨?_, toInt32_four_neg a b c d, ?_, ?_⟩
  · rw [convertBytesToInteger_eq _ _ (by simp)]
    have ht : (lead ++ [a, b, c, d] ++ rest).take (lead.length + 4) = lead ++ [a, b, c, d] := by
      apply List.take_left'
      simp
    rw [ht, toInt32_bigEndian_append]
  · have h := readAndDecode_item_of_ne prior b3 b4 entry (front ++ [a, b, c, d]) hmem h70 h71 hlen
    rw [hval] at h
    exact h
  · have hs := loopBody_shift (packetPrefix b3 b4) (entry.itemCode :: (front ++ [a, b, c, d]))
      (((entry.itemCode :: (front ++ [a, b, c, d])).length : Nat) : Int) 0 []
    have hb := loopBody_record (.item entry (front ++ [a, b, c, d])) ⟨hmem, h70, h71, hlen⟩ []
      (((entry.itemCode :: (front ++ [a, b, c, d])).length : Nat) : Int) (Int.le_refl _) []
    simp only [Record.encode, Record.readings, List.append_nil, List.nil_append, hval] at hb
    rw [hb] at hs
    have h5 : (packetPrefix b3 b4).length = 5 := rfl
    simp only [Step.shift, h5, List.length_cons, hlen] at hs
    have hn : (((packetPrefix b3 b4 ++ entry.itemCode :: (front ++ [a, b, c, d])).length : Nat)
        : Int) = ((5 : Nat) : Int) + ((entry.size + 1 : Nat) : Int) := by
      rw [List.length_append, h5, List.length_cons, hlen]
      push_cast
      ring
    rw [hn, hs]
    congr 1
    omega

/-- Witness of C20: two Date-and-time records that differ in their first two value bytes only,
with the top bit of the third set, both yield `-2096888576`, the `float` of the 32-bit value
`-2096888570` of the last four. -/
theorem reconstruction_wraps_witness :
    readAndDecode [] [0xFF, 0xFF, 0x27, 0x00, 0x0C, 0x18, 0x01, 0x02, 0x83, 0x04, 0x05, 0x06] 12
        = .returned true [⟨0x18, "Date and time", "N/A", -2096888576⟩] ∧
    readAndDecode [] [0xFF, 0xFF, 0x27, 0x00, 0x0C, 0x18, 0xFE, 0xFD, 0x83, 0x04, 0x05, 0x06] 12
        = .returned true [⟨0x18, "Date and time", "N/A", -2096888576⟩] := by
  have hv : toFloat ((toInt32 (bigEndian [0x83, 0x04, 0x05, 0x06]) : Int) : ℚ)
      = -2096888576 := by decide!
  constructor
  · have h := (reconstruction_wraps [] 0x00 0x0C [] [] [0x01, 0x02] 0x83 0x04 0x05 0x06
      (SensorItem.mk 0x18 "Date and time" "N/A" 6) (Or.inl rfl) rfl).2.2.1
    rw [hv] at h
    exact h
  · have h := (reconstruction_wraps [] 0x00 0x0C [] [] [0xFE, 0xFD] 0x83 0x04 0x05 0x06
      (SensorItem.mk 0x18 "Date and time" "N/A" 6) (Or.inl rfl) rfl).2.2.1
    rw [hv] at h
    exact h

end EcowittGW1000
